import Mathlib

/-!
Verification of the aggregation and derived-metrics engine of the
stride-ai running-analytics dashboard.

The TypeScript source is shallowly embedded: JavaScript strings are
lists of characters, JavaScript finite numbers are rationals (`ℚ`),
`parseInt` results are `Option ℤ` with `none` standing for `NaN`,
calendar timestamps are either year/month/day triples (the season
views) or abstract day numbers (the weekly-summary view).  Date-string
parsing itself (date-fns `parse`, `new Date`) is outside the verified
core: records carry their already-parsed dates.
-/

/-- JavaScript strings are modelled as lists of characters so that all
string operations reduce in the kernel. -/
abbrev JStr := List Char

/-- Splits a character list at every occurrence of the separator, like
JavaScript `s.split(sep)` for a single-character separator: the result is
always non-empty, and separators at the ends produce empty fragments. -/
def splitOnChar (sep : Char) : JStr → List JStr
  | [] => [[]]
  | c :: rest =>
    match splitOnChar sep rest with
    | [] => [[]]
    | p :: ps => if c = sep then [] :: p :: ps else (c :: p) :: ps

/-- Whether the pattern occurs at the start of the string. -/
def startsWithJ : JStr → JStr → Bool
  | _, [] => true
  | [], _ :: _ => false
  | c :: s, p :: ps => c = p && startsWithJ s ps

/-- JavaScript `s.includes(pat)`: substring containment. -/
def jsIncludes (s pat : JStr) : Bool :=
  s.tails.any (fun t => startsWithJ t pat)

/-- JavaScript `s.trim()`: strip whitespace from both ends. -/
def trimJ (s : JStr) : JStr :=
  ((s.dropWhile Char.isWhitespace).reverse.dropWhile Char.isWhitespace).reverse

/-- Numeric value of a maximal decimal-digit run. -/
def digitsValue (ds : JStr) : ℤ :=
  ds.foldl (fun a c => a * 10 + ((c.toNat : ℤ) - ('0'.toNat : ℤ))) 0

/-- Parses a leading run of decimal digits; `none` when there is none. -/
def parseDigits (s : JStr) : Option ℤ :=
  let ds := s.takeWhile Char.isDigit
  if ds = [] then none else some (digitsValue ds)

/-- JavaScript `parseInt(s)` (decimal): skip leading whitespace, allow an
optional sign, then read the longest digit prefix; `none` models `NaN`.
(The automatic hexadecimal `0x` prefix of `parseInt` is not modelled; no
input in this development uses it.) -/
def parseIntJS (s : JStr) : Option ℤ :=
  match s.dropWhile Char.isWhitespace with
  | '-' :: rest => (parseDigits rest).map (fun v => -v)
  | '+' :: rest => parseDigits rest
  | t => parseDigits t

/-- The race-time parser of the BibBook view (`timeToSeconds`): an empty
string gives 0; when the string contains `'T'` the segment between the
first `'T'` and the next `'T'` (or the end) is used; a colon split with
exactly three parts is summed as h:mm:ss via `parseInt` (`none` models the
`NaN` produced when a part has no leading digits); any other part count
gives 0. -/
def timeToSecondsJS (timeString : JStr) : Option ℤ :=
  if timeString = [] then some 0
  else
    let timeStr :=
      if jsIncludes timeString ['T'] then (splitOnChar 'T' timeString).getD 1 []
      else timeString
    let parts := splitOnChar ':' timeStr
    if parts.length = 3 then
      match parseIntJS (parts.getD 0 []), parseIntJS (parts.getD 1 []),
            parseIntJS (parts.getD 2 []) with
      | some h, some m, some s => some (h * 3600 + m * 60 + s)
      | _, _, _ => none
    else some 0

/-- The PerformanceLab local `timeToSeconds`: the same colon-split parser
but with no `'T'` handling. -/
def timeToSecondsPlain (timeString : JStr) : Option ℤ :=
  if timeString = [] then some 0
  else
    let parts := splitOnChar ':' timeString
    if parts.length = 3 then
      match parseIntJS (parts.getD 0 []), parseIntJS (parts.getD 1 []),
            parseIntJS (parts.getD 2 []) with
      | some h, some m, some s => some (h * 3600 + m * 60 + s)
      | _, _, _ => none
    else some 0

/-- A race-log row, with the date already parsed to an epoch-milliseconds
timestamp (`new Date(race.date).getTime()`); `time` is the raw finish-time
string and `distance` the nominal distance in miles. -/
structure Race where
  time : JStr
  distance : ℚ
  dateMs : ℤ
deriving DecidableEq

/-- The race-progress view resolves a race's time by taking the part after
`'T'` when present and feeding it to the plain parser. -/
def raceTimeSeconds (r : Race) : Option ℤ :=
  if jsIncludes r.time ['T'] then
    timeToSecondsPlain ((splitOnChar 'T' r.time).getD 1 [])
  else timeToSecondsPlain r.time

/-- JavaScript `a < b` on numbers that may be `NaN`: false when either
side is `NaN`. -/
def jsLt : Option ℤ → Option ℤ → Bool
  | some a, some b => a < b
  | _, _ => false

/-- JavaScript `a > 0` on a number that may be `NaN`. -/
def jsGtZero : Option ℤ → Bool
  | some a => 0 < a
  | none => false

/-- The strict-`<` best-time scan of the BibBook/SeasonStats race stats:
starting from the first race, a race replaces the current best exactly
when its parsed time is both smaller than the current best and positive. -/
def bestRaceLoop (best : Race) (bestT : Option ℤ) : List Race → Race
  | [] => best
  | r :: rest =>
    if jsLt (timeToSecondsJS r.time) bestT && jsGtZero (timeToSecondsJS r.time) then
      bestRaceLoop r (timeToSecondsJS r.time) rest
    else bestRaceLoop best bestT rest

/-- `forEach` runs over the whole category list, seeded with its head. -/
def bestRaceOf : List Race → Option Race
  | [] => none
  | r0 :: rest => some (bestRaceLoop r0 (timeToSecondsJS r0.time) (r0 :: rest))

/-- The races of one distance class: a truthy time string and a nominal
distance within the ±0.1-mile band of the class target. -/
def categoryRaces (races : List Race) (target : ℚ) : List Race :=
  (races.filter (fun r => !(r.time = []))).filter
    (fun r => |r.distance - target| < 1/10)

/-- The per-class personal record as computed by the source. -/
def bestTimesFor (races : List Race) (target : ℚ) : Option Race :=
  bestRaceOf (categoryRaces races target)

/-- Parsed time with `NaN` collapsed to 0, used only to state minimality. -/
def tvOf (r : Race) : ℤ := (timeToSecondsJS r.time).getD 0

/-- Minimum parsed time over a non-empty race list (0 for the empty list). -/
def minTv : List Race → ℤ
  | [] => 0
  | r :: rest => rest.foldl (fun a r' => min a (tvOf r')) (tvOf r)

/-- The race-progression filter: distance within the class band, truthy
time string, and a positive parsed time. -/
def progressFiltered (races : List Race) (target : ℚ) : List Race :=
  ((races.filter (fun r => |r.distance - target| < 1/10 && !(r.time = []))).filter
    (fun r => jsGtZero (raceTimeSeconds r)))

/-- Stable ascending insertion by date, modelling the JavaScript stable
`sort((a, b) => a.date - b.date)`. -/
def insertByDate (r : Race) : List Race → List Race
  | [] => [r]
  | x :: xs => if r.dateMs ≤ x.dateMs then r :: x :: xs else x :: insertByDate r xs

/-- Sort the filtered races by date ascending. -/
def sortByDate (l : List Race) : List Race := l.foldr insertByDate []

/-- One row of the personal-best progression series. -/
structure ProgressEntry where
  raceNumber : ℕ
  timeSeconds : ℤ
  personalBest : ℤ
deriving DecidableEq

/-- `index === 0 ? t : Math.min(t, ...ts.slice(0, index))`: the running
personal best at an index over the time column. -/
def personalBestAt (ts : List ℤ) (i : ℕ) (t : ℤ) : ℤ :=
  if i = 0 then t else (ts.take i).foldl min t

/-- The PerformanceLab progression series for one distance class: filter,
sort by date ascending, then pair each time with its running minimum.
(After the positivity filter every `raceTimeSeconds` is `some`, so the
`getD 0` extraction is exact.) -/
def raceProgressData (races : List Race) (target : ℚ) : List ProgressEntry :=
  let sorted := sortByDate (progressFiltered races target)
  let ts := sorted.map (fun r => (raceTimeSeconds r).getD 0)
  (List.range ts.length).map
    (fun i => ⟨i + 1, ts.getD i 0, personalBestAt ts i (ts.getD i 0)⟩)

/-- The time column of the progression series: parsed seconds of the
filtered races in date order. -/
def progressTimes (races : List Race) (target : ℚ) : List ℤ :=
  (sortByDate (progressFiltered races target)).map (fun r => (raceTimeSeconds r).getD 0)

/-- Canonical race-distance classes; `other` keeps the raw mileage. -/
inductive DistanceClass where
  | marathon
  | halfMarathon
  | fiveK
  | tenK
  | fifteenK
  | other (raw : ℚ)
deriving DecidableEq

/-- The distance-label chain of the race-progress view: successive
±0.1-mile band tests for Marathon, Half Marathon, 5K, 10K, 15K, with a
fall-through to the raw mileage. -/
def classifyDistance (d : ℚ) : DistanceClass :=
  if |d - 131/5| < 1/10 then .marathon
  else if |d - 131/10| < 1/10 then .halfMarathon
  else if |d - 31/10| < 1/10 then .fiveK
  else if |d - 621371/100000| < 1/10 then .tenK
  else if |d - 93/10| < 1/10 then .fifteenK
  else .other d

/-- JavaScript `Math.round`: round half towards positive infinity. -/
def jsRound (q : ℚ) : ℤ := ⌊q + 1/2⌋

/-- `Math.round(x * 10) / 10`: round to one decimal place. -/
def round10 (q : ℚ) : ℚ := ((jsRound (q * 10) : ℚ)) / 10

/-- `Math.round(x * 100) / 100`: round to two decimal places. -/
def round100 (q : ℚ) : ℚ := ((jsRound (q * 100) : ℚ)) / 100

/-- A calendar date at day resolution, with the JavaScript conventions of
the source: `month` is 0-based (0 = January), `day` is 1-based.  The
source compares full timestamps; at the day resolution used by every
claim here, timestamp order is the lexicographic order on these triples. -/
structure CalDate where
  year : ℤ
  month : ℕ
  day : ℕ
deriving DecidableEq

/-- Lexicographic (chronological) `≤` on dates, as a boolean. -/
def dleB (a b : CalDate) : Bool :=
  a.year < b.year ||
    (a.year = b.year &&
      (a.month < b.month || (a.month = b.month && a.day ≤ b.day)))

/-- Lexicographic (chronological) strict order on dates. -/
def dltP (a b : CalDate) : Prop :=
  a.year < b.year ∨
    (a.year = b.year ∧ (a.month < b.month ∨ (a.month = b.month ∧ a.day < b.day)))

/-- Gregorian leap-year rule. -/
def isLeap (y : ℤ) : Bool := (y % 4 = 0 && !(y % 100 = 0)) || y % 400 = 0

/-- Days in a (0-based) month. -/
def daysInMonth (y : ℤ) (m : ℕ) : ℕ :=
  if m = 0 then 31 else if m = 1 then (if isLeap y then 29 else 28)
  else if m = 2 then 31 else if m = 3 then 30 else if m = 4 then 31
  else if m = 5 then 30 else if m = 6 then 31 else if m = 7 then 31
  else if m = 8 then 30 else if m = 9 then 31 else if m = 10 then 30
  else 31

/-- The calendar day after a date. -/
def nextDate (d : CalDate) : CalDate :=
  if d.day + 1 ≤ daysInMonth d.year d.month then ⟨d.year, d.month, d.day + 1⟩
  else if d.month ≥ 11 then ⟨d.year + 1, 0, 1⟩
  else ⟨d.year, d.month + 1, 1⟩

/-- The calendar day before a date. -/
def prevDate (d : CalDate) : CalDate :=
  if d.day > 1 then ⟨d.year, d.month, d.day - 1⟩
  else if d.month = 0 then ⟨d.year - 1, 11, 31⟩
  else ⟨d.year, d.month - 1, daysInMonth d.year (d.month - 1)⟩

/-- Add days to a date. -/
def addDays (n : ℕ) (d : CalDate) : CalDate := nextDate^[n] d

/-- Subtract days from a date. -/
def subDays (n : ℕ) (d : CalDate) : CalDate := prevDate^[n] d

/-- Day of the week (0 = Sunday, as JavaScript `getDay`), by Zeller's
congruence; used only to locate the Sunday starting a week, never in a
proof obligation. -/
def dayOfWeekSun (d : CalDate) : ℕ :=
  let m : ℤ := d.month + 1
  let yy : ℤ := if m ≤ 2 then d.year - 1 else d.year
  let mm : ℤ := if m ≤ 2 then m + 12 else m
  let K : ℤ := yy % 100
  let J : ℤ := yy / 100
  let h : ℤ := ((d.day : ℤ) + (13 * (mm + 1)) / 5 + K + K / 4 + J / 4 + 5 * J) % 7
  (((h + 6) % 7).toNat)

/-- date-fns `startOfWeek` with the default Sunday week start. -/
def startOfWeekSun (d : CalDate) : CalDate := subDays (dayOfWeekSun d) d

/-- Week starts from `w` stepping 7 days while not beyond `stop`. -/
def weeksFrom (stop : CalDate) : ℕ → CalDate → List CalDate
  | 0, _ => []
  | fuel + 1, w => if dleB w stop then w :: weeksFrom stop fuel (addDays 7 w) else []

/-- date-fns `eachWeekOfInterval` (Sunday weeks): the week starts of every
week meeting the interval.  A month interval meets at most 6 weeks, which
the fuel covers exactly. -/
def eachWeekOfIntervalD (start stop : CalDate) : List CalDate :=
  weeksFrom stop 6 (startOfWeekSun start)

/-- An activity-export row with the date already parsed: `distance1` is
the authoritative meters field `Distance.1` (0 when absent — absent and 0
are equally falsy in the source's truthiness test), `distanceStr` the
`parseFloat`ed string-miles field, `movingTime` seconds, `elevationGain`
feet, `dirtDistance` meters. -/
structure Activity where
  activityType : JStr
  date : CalDate
  distance1 : ℚ
  distanceStr : ℚ
  movingTime : ℚ
  elevationGain : ℚ
  dirtDistance : ℚ
deriving DecidableEq

/-- `isRunningActivity`: case-insensitive containment of "run" and not of
"walk" or "hike"; the empty (falsy) type string is not running. -/
def isRunningActivity (activityType : JStr) : Bool :=
  if activityType = [] then false
  else
    let ty := trimJ (activityType.map Char.toLower)
    jsIncludes ty ("run").data && !jsIncludes ty ("walk").data &&
      !jsIncludes ty ("hike").data

/-- Distance resolution: the meters field divided by 1609.34 when truthy,
else the parsed string-miles field. -/
def totalDistanceOf (a : Activity) : ℚ :=
  if a.distance1 ≠ 0 then a.distance1 / (160934/100) else a.distanceStr

/-- Moving time in hours. -/
def hoursOf (a : Activity) : ℚ := a.movingTime / 3600

/-- `isTrailRun`: elevation gain per mile above 50 or dirt percentage
above 50, with both ratios forced to 0 unless the distance is positive. -/
def isTrailRun (a : Activity) : Bool :=
  let totalDistance := totalDistanceOf a
  let elevationPerMile := if totalDistance > 0 then a.elevationGain / totalDistance else 0
  let dirtPercentage :=
    if totalDistance > 0 then (a.dirtDistance / (160934/100)) / totalDistance * 100 else 0
  decide (elevationPerMile > 50) || decide (dirtPercentage > 50)

/-- The running activities of a selected year: running type, year ≥ 2016,
and date within `[Jan 1, Dec 31]` of the year. -/
def yearActivities (acts : List Activity) (y : ℤ) : List Activity :=
  acts.filter (fun a =>
    isRunningActivity a.activityType && decide ((2016:ℤ) ≤ a.date.year) &&
      dleB ⟨y, 0, 1⟩ a.date && dleB a.date ⟨y, 11, 31⟩)

/-- The activities falling inside one (0-based) month of the year.  The
upper endpoint models `new Date(y, m+1, 0)` (the last day of month `m`):
at day resolution the raw triple `⟨y, m+1, 0⟩` bounds exactly the same
dates. -/
def monthMatching (acts : List Activity) (y : ℤ) (m : ℕ) : List Activity :=
  acts.filter (fun a => dleB ⟨y, m, 1⟩ a.date && dleB a.date ⟨y, m + 1, 0⟩)

/-- The truthiness gate on a computed pace before rounding:
`pace ? Math.round(pace * 10) / 10 : null` — an exactly-zero pace is falsy
and becomes null. -/
def jsTruthyRound : Option ℚ → Option ℚ
  | none => none
  | some p => if p ≠ 0 then some (round10 p) else none

/-- The guarded raw pace of a subset: minutes per mile when the subset
mileage is positive, null otherwise. -/
def paceOf (miles hours : ℚ) : Option ℚ :=
  if miles > 0 then some ((hours * 60) / miles) else none

/-- Sum of resolved distances. -/
def milesSum (l : List Activity) : ℚ := (l.map totalDistanceOf).sum

/-- Sum of moving hours. -/
def hoursSum (l : List Activity) : ℚ := (l.map hoursOf).sum

/-- One monthly bucket of the interactive running chart. -/
structure MonthBucket where
  monthNumber : ℕ
  runs : ℕ
  runningMiles : ℚ
  trailMiles : ℚ
  roadMiles : ℚ
  runningHours : ℚ
  trailPace : Option ℚ
  roadPace : Option ℚ
deriving DecidableEq

/-- Builds the bucket of one month from the (already year-filtered)
running activities. -/
def monthBucket (acts : List Activity) (y : ℤ) (m : ℕ) : MonthBucket :=
  let monthRunning := monthMatching acts y m
  let monthTrail := monthRunning.filter (fun a => isTrailRun a)
  let monthRoad := monthRunning.filter (fun a => !isTrailRun a)
  let trailMiles := milesSum monthTrail
  let roadMiles := milesSum monthRoad
  { monthNumber := m
    runs := monthRunning.length
    runningMiles := round10 (trailMiles + roadMiles)
    trailMiles := round10 trailMiles
    roadMiles := round10 roadMiles
    runningHours := round10 (hoursSum monthRunning)
    trailPace := jsTruthyRound (paceOf trailMiles (hoursSum monthTrail))
    roadPace := jsTruthyRound (paceOf roadMiles (hoursSum monthRoad)) }

/-- The monthly drill-down: one bucket per month 0–11 of the selected
year. -/
def monthlyData (acts : List Activity) (y : ℤ) : List MonthBucket :=
  (List.range 12).map (fun m => monthBucket (yearActivities acts y) y m)

/-- The running activities of one month of a year (the weekly drill-down
pre-filter). -/
def monthActivities (acts : List Activity) (y : ℤ) (m : ℕ) : List Activity :=
  (acts.filter (fun a =>
    isRunningActivity a.activityType && decide ((2016:ℤ) ≤ a.date.year))).filter
    (fun a => dleB ⟨y, m, 1⟩ a.date && dleB a.date ⟨y, m + 1, 0⟩)

/-- The activities of one Sunday-started week (`endOfWeek` is the week
start plus 6 days). -/
def weekMatching (acts : List Activity) (ws : CalDate) : List Activity :=
  acts.filter (fun a => dleB ws a.date && dleB a.date (addDays 6 ws))

/-- One weekly bucket of the weekly drill-down. -/
structure WeekBucket where
  weekIndex : ℕ
  weekStart : CalDate
  runs : ℕ
  miles : ℚ
  trailMiles : ℚ
  roadMiles : ℚ
  hours : ℚ
  trailPace : Option ℚ
  roadPace : Option ℚ
deriving DecidableEq

/-- Builds the bucket of one week from the month-filtered activities. -/
def weekBucket (macts : List Activity) (idx : ℕ) (ws : CalDate) : WeekBucket :=
  let weekActivities := weekMatching macts ws
  let trailActivities := weekActivities.filter (fun a => isTrailRun a)
  let roadActivities := weekActivities.filter (fun a => !isTrailRun a)
  let trailMiles := milesSum trailActivities
  let roadMiles := milesSum roadActivities
  { weekIndex := idx
    weekStart := ws
    runs := weekActivities.length
    miles := round10 (milesSum weekActivities)
    trailMiles := round10 trailMiles
    roadMiles := round10 roadMiles
    hours := round10 (hoursSum weekActivities)
    trailPace := jsTruthyRound (paceOf trailMiles (hoursSum trailActivities))
    roadPace := jsTruthyRound (paceOf roadMiles (hoursSum roadActivities)) }

/-- The weekly drill-down: one bucket per week of the selected month. -/
def weeklyData (acts : List Activity) (y : ℤ) (m : ℕ) : List WeekBucket :=
  ((eachWeekOfIntervalD ⟨y, m, 1⟩ ⟨y, m + 1, 0⟩).enum).map
    (fun p => weekBucket (monthActivities acts y m) p.1 p.2)

/-- The running activities of one selected week (the daily drill-down
pre-filter). -/
def weekActivitiesFor (acts : List Activity) (ws : CalDate) : List Activity :=
  (acts.filter (fun a =>
    isRunningActivity a.activityType && decide ((2016:ℤ) ≤ a.date.year))).filter
    (fun a => dleB ws a.date && dleB a.date (addDays 6 ws))

/-- The activities of a single day (`isSameDay` at day resolution). -/
def dayMatching (acts : List Activity) (day : CalDate) : List Activity :=
  acts.filter (fun a => a.date = day)

/-- One daily bucket of the daily drill-down. -/
structure DayBucket where
  fullDate : CalDate
  runs : ℕ
  miles : ℚ
  trailMiles : ℚ
  roadMiles : ℚ
  hours : ℚ
  trailPace : Option ℚ
  roadPace : Option ℚ
deriving DecidableEq

/-- Builds the bucket of one day from the week-filtered activities. -/
def dayBucket (wacts : List Activity) (day : CalDate) : DayBucket :=
  let dayActivities := dayMatching wacts day
  let trailActivities := dayActivities.filter (fun a => isTrailRun a)
  let roadActivities := dayActivities.filter (fun a => !isTrailRun a)
  let trailMiles := milesSum trailActivities
  let roadMiles := milesSum roadActivities
  { fullDate := day
    runs := dayActivities.length
    miles := round10 (milesSum dayActivities)
    trailMiles := round10 trailMiles
    roadMiles := round10 roadMiles
    hours := round10 (hoursSum dayActivities)
    trailPace := jsTruthyRound (paceOf trailMiles (hoursSum trailActivities))
    roadPace := jsTruthyRound (paceOf roadMiles (hoursSum roadActivities)) }

/-- The 7 days of a selected week (`eachDayOfInterval` from the week
start to its `endOfWeek`). -/
def daysOfWeek (ws : CalDate) : List CalDate :=
  (List.range 7).map (fun i => addDays i ws)

/-- The daily drill-down: one bucket per day of the selected week. -/
def dailyData (acts : List Activity) (ws : CalDate) : List DayBucket :=
  (daysOfWeek ws).map (fun day => dayBucket (weekActivitiesFor acts ws) day)

/-- Ascending insertion of a year into a sorted list. -/
def insertYear (y : ℤ) : List ℤ → List ℤ
  | [] => [y]
  | x :: xs => if y ≤ x then y :: x :: xs else x :: insertYear y xs

/-- `Array.from(set).sort((a, b) => a - b)` over collected years. -/
def sortYears (l : List ℤ) : List ℤ := l.foldr insertYear []

/-- `availableYears`: the distinct years ≥ 2016 carrying at least one
running activity, ascending. -/
def availableYears (acts : List Activity) : List ℤ :=
  sortYears (((acts.filter (fun a =>
    isRunningActivity a.activityType && decide ((2016:ℤ) ≤ a.date.year))).map
      (fun a => a.date.year)).dedup)

/-- One yearly bucket of the interactive running chart. -/
structure YearBucket where
  year : ℤ
  runs : ℕ
  totalMiles : ℚ
  trailMiles : ℚ
  roadMiles : ℚ
  totalHours : ℚ
  trailPace : Option ℚ
  roadPace : Option ℚ
deriving DecidableEq

/-- Builds the bucket of one year from the running activities. -/
def yearBucket (acts : List Activity) (yr : ℤ) : YearBucket :=
  let yActs := (acts.filter (fun a =>
    isRunningActivity a.activityType && decide ((2016:ℤ) ≤ a.date.year))).filter
    (fun a => dleB ⟨yr, 0, 1⟩ a.date && dleB a.date ⟨yr, 11, 31⟩)
  let trailActivities := yActs.filter (fun a => isTrailRun a)
  let roadActivities := yActs.filter (fun a => !isTrailRun a)
  let trailMiles := milesSum trailActivities
  let roadMiles := milesSum roadActivities
  { year := yr
    runs := yActs.length
    totalMiles := round10 (milesSum yActs)
    trailMiles := round10 trailMiles
    roadMiles := round10 roadMiles
    totalHours := round10 (hoursSum yActs)
    trailPace := jsTruthyRound (paceOf trailMiles (hoursSum trailActivities))
    roadPace := jsTruthyRound (paceOf roadMiles (hoursSum roadActivities)) }

/-- The yearly overview: one bucket per available year. -/
def yearlyData (acts : List Activity) : List YearBucket :=
  (availableYears acts).map (yearBucket acts)

/-- The season-level average pace of `runningStats`: guarded on the total
HOURS being positive (not the mileage), then `Math.round(pace * 10) / 10`;
`none` models the JavaScript `Infinity` produced when positive hours are
divided by zero miles; the zero-hours branch yields the 0 sentinel. -/
def runningStatsAvgPace (acts : List Activity) (y : ℤ) : Option ℚ :=
  let ya := yearActivities acts y
  let totalMiles := milesSum ya
  let totalHours := hoursSum ya
  if totalHours > 0 then
    if totalMiles = 0 then none
    else some (round10 ((totalHours * 60) / totalMiles))
  else some 0

/-- Medal emojis of the race-history table. -/
inductive Medal where
  | gold
  | silver
  | bronze
deriving DecidableEq

/-- Placement facts of a displayed race: optional overall and divisional
places. -/
structure Placement where
  overall_place : Option ℕ
  division_place : Option ℕ
deriving DecidableEq

/-- `race.overall_place && race.overall_place <= 3`, with JavaScript
truthiness (a place of 0 is falsy). -/
def isPodium (p : Placement) : Bool :=
  match p.overall_place with
  | some v => !(v = 0) && v ≤ 3
  | none => false

/-- `race.division_place && race.division_place <= 3`. -/
def isAgGroupPodium (p : Placement) : Bool :=
  match p.division_place with
  | some v => !(v = 0) && v ≤ 3
  | none => false

/-- The medal chain of the BibBook race table: overall podium forces
gold; otherwise the literal division place picks gold, silver or bronze,
and anything else shows no medal. -/
def getMedalEmoji (p : Placement) : Option Medal :=
  if isPodium p then some .gold
  else if p.division_place = some 1 then some .gold
  else if p.division_place = some 2 then some .silver
  else if p.division_place = some 3 then some .bronze
  else none

/-- A Strava API activity of the weekly training summary, with the ISO
`start_date` already parsed to a day number.  Day numbers are an abstract
epoch count chosen so that day 0 is a Monday, which makes the Monday week
start a plain remainder. -/
structure SActivity where
  distance : ℚ
  moving_time : ℚ
  total_elevation_gain : ℚ
  start_day : ℤ
deriving DecidableEq

/-- date-fns `startOfWeek(d, { weekStartsOn: 1 })` on day numbers with
day 0 a Monday. -/
def startOfWeekMonday (n : ℤ) : ℤ := n - n % 7

/-- One weekly summary row. -/
structure WeeklySummary where
  week : ℤ
  weekLabel : String
  totalMiles : ℚ
  totalTime : ℤ
  runCount : ℕ
  avgPace : ℚ
  totalElevation : ℤ
deriving DecidableEq

/-- The bucket of the week `i` whole weeks before the anchor week. -/
def weeklySummaryAt (acts : List SActivity) (anchor : ℤ) (i : ℕ) : WeeklySummary :=
  let weekStart := startOfWeekMonday (anchor - 7 * i)
  let weekEnd := weekStart + 6
  let weekActivities := acts.filter
    (fun a => decide (weekStart ≤ a.start_day) && decide (a.start_day ≤ weekEnd))
  let totalMiles := (weekActivities.map (fun a => a.distance)).sum / (160934/100)
  let totalTime := (weekActivities.map (fun a => a.moving_time)).sum / 60
  let totalElevation := (weekActivities.map (fun a => a.total_elevation_gain)).sum
  let avgPace := if totalMiles > 0 then totalTime / totalMiles else 0
  { week := weekStart
    weekLabel :=
      if i = 0 then "This Week" else if i = 1 then "Last Week"
      else toString i ++ " weeks ago"
    totalMiles := round10 totalMiles
    totalTime := jsRound totalTime
    runCount := weekActivities.length
    avgPace := round100 avgPace
    totalElevation := jsRound (totalElevation * (328084/100000)) }

/-- `generateWeeklySummaries`: the loop `for (i = 3; i >= 0; i--)`. -/
def generateWeeklySummaries (acts : List SActivity) (anchor : ℤ) : List WeeklySummary :=
  [3, 2, 1, 0].map (weeklySummaryAt acts anchor)

/-- Modelled from the amended specification of the race-time parser, in a
different shape (monadic traversal of all colon parts) to compare against
the implementation. -/
def timeToSecondsSpec (timeString : JStr) : Option ℤ :=
  if timeString = [] then some 0
  else
    let resolved :=
      if jsIncludes timeString ['T'] then (splitOnChar 'T' timeString).getD 1 []
      else timeString
    let parts := splitOnChar ':' resolved
    if parts.length = 3 then
      match parts.mapM parseIntJS with
      | some [h, m, s] => some (h * 3600 + m * 60 + s)
      | _ => none
    else some 0

/-- C1: the terrain classifier labels an activity trail exactly when the
elevation-per-mile ratio exceeds 50 or the dirt percentage exceeds 50,
with both ratios treated as 0 when the (nonnegative) distance is 0, and a
zero-distance activity is never trail regardless of elevation and dirt. -/
theorem trail_classification_spec (a : Activity) (hd : 0 ≤ totalDistanceOf a) :
    (isTrailRun a = true ↔
      (50 < (if totalDistanceOf a = 0 then 0 else a.elevationGain / totalDistanceOf a) ∨
       50 < (if totalDistanceOf a = 0 then 0
             else (a.dirtDistance / (160934/100)) / totalDistanceOf a * 100))) ∧
    (totalDistanceOf a = 0 → isTrailRun a = false) := by
  rcases eq_or_lt_of_le hd with h0 | hpos
  · constructor
    · simp [isTrailRun, ← h0]
    · intro _
      simp [isTrailRun, ← h0]
  · have hne : totalDistanceOf a ≠ 0 := ne_of_gt hpos
    constructor
    · simp [isTrailRun, hpos, hne]
    · intro h
      exact absurd h hne

/-- Concrete instance of the terrain-classifier theorem: a 10-mile run
with 600 feet of gain is classified trail. -/
theorem trail_classification_spec_witness :
    0 ≤ totalDistanceOf ⟨("Trail Run").data, ⟨2024, 4, 2⟩, 0, 10, 3600, 600, 0⟩ ∧
    (isTrailRun ⟨("Trail Run").data, ⟨2024, 4, 2⟩, 0, 10, 3600, 600, 0⟩ = true ↔
      (50 < (if totalDistanceOf ⟨("Trail Run").data, ⟨2024, 4, 2⟩, 0, 10, 3600, 600, 0⟩ = 0
             then 0
             else (600 : ℚ) / totalDistanceOf ⟨("Trail Run").data, ⟨2024, 4, 2⟩, 0, 10, 3600, 600, 0⟩) ∨
       50 < (if totalDistanceOf ⟨("Trail Run").data, ⟨2024, 4, 2⟩, 0, 10, 3600, 600, 0⟩ = 0
             then 0
             else ((0 : ℚ) / (160934/100)) /
               totalDistanceOf ⟨("Trail Run").data, ⟨2024, 4, 2⟩, 0, 10, 3600, 600, 0⟩ * 100))) := by
  have hd : 0 ≤ totalDistanceOf ⟨("Trail Run").data, ⟨2024, 4, 2⟩, 0, 10, 3600, 600, 0⟩ := by
    simp [totalDistanceOf]
  exact ⟨hd, (trail_classification_spec ⟨("Trail Run").data, ⟨2024, 4, 2⟩, 0, 10, 3600, 600, 0⟩ hd).1⟩

/-- C4: each canonical distance class is assigned exactly on its
±0.1-mile tolerance band (the bands are disjoint, so the sequential chain
realises nearest-match), and a distance in no band keeps its raw mileage. -/
theorem distance_class_bands (d : ℚ) :
    (classifyDistance d = .marathon ↔ |d - 131/5| < 1/10) ∧
    (classifyDistance d = .halfMarathon ↔ |d - 131/10| < 1/10) ∧
    (classifyDistance d = .fiveK ↔ |d - 31/10| < 1/10) ∧
    (classifyDistance d = .tenK ↔ |d - 621371/100000| < 1/10) ∧
    (classifyDistance d = .fifteenK ↔ |d - 93/10| < 1/10) ∧
    (¬ |d - 131/5| < 1/10 → ¬ |d - 131/10| < 1/10 → ¬ |d - 31/10| < 1/10 →
      ¬ |d - 621371/100000| < 1/10 → ¬ |d - 93/10| < 1/10 →
      classifyDistance d = .other d) := by
  have nb : ∀ x y : ℚ, |d - x| < 1/10 → (1/5 ≤ x - y ∨ 1/5 ≤ y - x) →
      ¬ |d - y| < 1/10 := by
    intro x y hx hgap hy
    rw [abs_lt] at hx hy
    rcases hgap with h | h <;> linarith
  refine ⟨?_, ?_, ?_, ?_, ?_, ?_⟩
  · constructor
    · intro h
      unfold classifyDistance at h
      split_ifs at h with h1 h2 h3 h4 h5
      exact h1
    · intro hb
      unfold classifyDistance
      rw [if_pos hb]
  · constructor
    · intro h
      unfold classifyDistance at h
      split_ifs at h with h1 h2 h3 h4 h5
      exact h2
    · intro hb
      unfold classifyDistance
      rw [if_neg (nb (131/10) (131/5) hb (Or.inr (by norm_num))), if_pos hb]
  · constructor
    · intro h
      unfold classifyDistance at h
      split_ifs at h with h1 h2 h3 h4 h5
      exact h3
    · intro hb
      unfold classifyDistance
      rw [if_neg (nb (31/10) (131/5) hb (Or.inr (by norm_num))),
        if_neg (nb (31/10) (131/10) hb (Or.inr (by norm_num))), if_pos hb]
  · constructor
    · intro h
      unfold classifyDistance at h
      split_ifs at h with h1 h2 h3 h4 h5
      exact h4
    · intro hb
      unfold classifyDistance
      rw [if_neg (nb (621371/100000) (131/5) hb (Or.inr (by norm_num))),
        if_neg (nb (621371/100000) (131/10) hb (Or.inr (by norm_num))),
        if_neg (nb (621371/100000) (31/10) hb (Or.inl (by norm_num))), if_pos hb]
  · constructor
    · intro h
      unfold classifyDistance at h
      split_ifs at h with h1 h2 h3 h4 h5
      exact h5
    · intro hb
      unfold classifyDistance
      rw [if_neg (nb (93/10) (131/5) hb (Or.inr (by norm_num))),
        if_neg (nb (93/10) (131/10) hb (Or.inr (by norm_num))),
        if_neg (nb (93/10) (31/10) hb (Or.inl (by norm_num))),
        if_neg (nb (93/10) (621371/100000) hb (Or.inl (by norm_num))), if_pos hb]
  · intro g1 g2 g3 g4 g5
    unfold classifyDistance
    rw [if_neg g1, if_neg g2, if_neg g3, if_neg g4, if_neg g5]

/-- Concrete instance of the band theorem: a 20-mile race is in no band
and keeps its raw mileage as its class. -/
theorem distance_class_bands_witness :
    (¬ |(20:ℚ) - 131/5| < 1/10) ∧ (¬ |(20:ℚ) - 131/10| < 1/10) ∧
    (¬ |(20:ℚ) - 31/10| < 1/10) ∧ (¬ |(20:ℚ) - 621371/100000| < 1/10) ∧
    (¬ |(20:ℚ) - 93/10| < 1/10) ∧ classifyDistance 20 = .other 20 := by
  have g1 : ¬ |(20:ℚ) - 131/5| < 1/10 := by
    rw [abs_lt]
    rintro ⟨h, -⟩
    norm_num at h
  have g2 : ¬ |(20:ℚ) - 131/10| < 1/10 := by
    rw [abs_lt]
    rintro ⟨-, h⟩
    norm_num at h
  have g3 : ¬ |(20:ℚ) - 31/10| < 1/10 := by
    rw [abs_lt]
    rintro ⟨-, h⟩
    norm_num at h
  have g4 : ¬ |(20:ℚ) - 621371/100000| < 1/10 := by
    rw [abs_lt]
    rintro ⟨-, h⟩
    norm_num at h
  have g5 : ¬ |(20:ℚ) - 93/10| < 1/10 := by
    rw [abs_lt]
    rintro ⟨-, h⟩
    norm_num at h
  exact ⟨g1, g2, g3, g4, g5, (distance_class_bands 20).2.2.2.2.2 g1 g2 g3 g4 g5⟩

/-- C7 (amended): the race-time parser is total and agrees everywhere
with the spec-modelled parser that traverses all colon parts, including
the `NaN` outcome on three non-numeric parts. -/
theorem time_parser_amended (s : JStr) : timeToSecondsJS s = timeToSecondsSpec s := by
  unfold timeToSecondsJS timeToSecondsSpec
  by_cases hnil : s = []
  · simp [hnil]
  · simp only [if_neg hnil]
    by_cases h3 : (splitOnChar ':'
        (if jsIncludes s ['T'] then (splitOnChar 'T' s).getD 1 [] else s)).length = 3
    · obtain ⟨a, b, c, habc⟩ := List.length_eq_three.mp h3
      rw [habc]
      simp only [List.length_cons, List.length_nil, if_pos rfl]
      cases hpa : parseIntJS a <;> cases hpb : parseIntJS b <;> cases hpc : parseIntJS c <;>
        simp [hpa, hpb, hpc, List.getD, List.mapM.loop]
    · rw [if_neg h3, if_neg h3]

/-- Concrete refutation of C7 as stated: on `"a:b:c"` the colon split has
three parts but none is numeric, and the parser yields `NaN` (modelled
`none`), not the claimed 0. -/
theorem time_parser_counterexample :
    timeToSecondsJS ("a:b:c").data = none ∧ timeToSecondsJS ("a:b:c").data ≠ some 0 := by
  constructor
  · decide
  · decide

/-- C8: with valid (nonzero) placements, an overall podium finish always
shows gold regardless of the division place; otherwise the literal
division place 1/2/3 picks gold/silver/bronze and anything else shows no
medal. -/
theorem medal_display_rule (p : Placement) (h0 : p.overall_place ≠ some 0) :
    ((∃ v, p.overall_place = some v ∧ v ≤ 3) → getMedalEmoji p = some .gold) ∧
    ((¬ ∃ v, p.overall_place = some v ∧ v ≤ 3) →
      getMedalEmoji p =
        if p.division_place = some 1 then some .gold
        else if p.division_place = some 2 then some .silver
        else if p.division_place = some 3 then some .bronze
        else none) := by
  constructor
  · rintro ⟨v, hv, hv3⟩
    have hvne : v ≠ 0 := by
      intro h
      exact h0 (h ▸ hv)
    have hpod : isPodium p = true := by
      simp [isPodium, hv, hvne, hv3]
    simp [getMedalEmoji, hpod]
  · intro hno
    have hpod : isPodium p = false := by
      cases hop : p.overall_place with
      | none => simp [isPodium, hop]
      | some v =>
        simp only [isPodium, hop, Bool.and_eq_false_iff]
        right
        simp only [decide_eq_false_iff_not]
        intro hle
        exact hno ⟨v, hop, hle⟩
    simp [getMedalEmoji, hpod]

/-- Concrete instance of the medal rule: second overall but third in
division still shows gold. -/
theorem medal_display_rule_witness :
    (⟨some 2, some 3⟩ : Placement).overall_place ≠ some 0 ∧
    getMedalEmoji ⟨some 2, some 3⟩ = some .gold :=
  ⟨by decide, (medal_display_rule ⟨some 2, some 3⟩ (by decide)).1 ⟨2, rfl, by decide⟩⟩

/-- C9: the weekly summary always has exactly 4 buckets, labelled (oldest
first) "3 weeks ago", "2 weeks ago", "Last Week", "This Week"; the week
starts are the Mondays 21, 14, 7 and 0 days before the start of the week
containing the anchor, so the buckets step back whole Monday-started
weeks and are ordered most-recent-last. -/
theorem weekly_summary_shape (acts : List SActivity) (anchor : ℤ) :
    (generateWeeklySummaries acts anchor).length = 4 ∧
    (generateWeeklySummaries acts anchor).map (fun w => w.weekLabel)
      = ["3 weeks ago", "2 weeks ago", "Last Week", "This Week"] ∧
    (generateWeeklySummaries acts anchor).map (fun w => w.week)
      = [startOfWeekMonday anchor - 21, startOfWeekMonday anchor - 14,
         startOfWeekMonday anchor - 7, startOfWeekMonday anchor] ∧
    startOfWeekMonday anchor % 7 = 0 ∧
    startOfWeekMonday anchor ≤ anchor ∧ anchor ≤ startOfWeekMonday anchor + 6 := by
  refine ⟨rfl, ?_, ?_, ?_, ?_, ?_⟩
  · simp only [generateWeeklySummaries, weeklySummaryAt, List.map_cons, List.map_nil]
    decide
  · simp only [generateWeeklySummaries, weeklySummaryAt, startOfWeekMonday,
      List.map_cons, List.map_nil, List.cons.injEq, and_true]
    refine ⟨?_, ?_, ?_, ?_⟩ <;> omega
  · unfold startOfWeekMonday
    omega
  · unfold startOfWeekMonday
    omega
  · unfold startOfWeekMonday
    omega

/-- A left fold by `min` is bounded by its seed. -/
theorem foldlMin_le_init (l : List ℤ) : ∀ d : ℤ, l.foldl min d ≤ d := by
  induction l with
  | nil => intro d; simp
  | cons x xs ih =>
    intro d
    rw [List.foldl_cons]
    exact le_trans (ih (min d x)) (min_le_left d x)

/-- A left fold by `min` is bounded by every list element. -/
theorem foldlMin_le_mem (l : List ℤ) : ∀ d a : ℤ, a ∈ l → l.foldl min d ≤ a := by
  induction l with
  | nil =>
    intro d a ha
    simp at ha
  | cons x xs ih =>
    intro d a ha
    rw [List.foldl_cons]
    rcases List.mem_cons.mp ha with h | h
    · subst h
      exact le_trans (foldlMin_le_init xs (min d a)) (min_le_right d a)
    · exact ih (min d x) a h

/-- A left fold by `min` is attained at the seed or at a list element. -/
theorem foldlMin_eq_init_or_mem (l : List ℤ) :
    ∀ d : ℤ, l.foldl min d = d ∨ l.foldl min d ∈ l := by
  induction l with
  | nil =>
    intro d
    left
    rfl
  | cons x xs ih =>
    intro d
    rw [List.foldl_cons]
    rcases ih (min d x) with h | h
    · rcases min_choice d x with hm | hm
      · left
        rw [h, hm]
      · right
        rw [h, hm]
        exact List.mem_cons_self x xs
    · right
      exact List.mem_cons_of_mem x h

/-- `find?` on a cons whose head fails the predicate, with the predicate
explicit. -/
theorem findConsNeg (p : Race → Bool) (a : Race) (l : List Race) (h : ¬ p a = true) :
    (a :: l).find? p = l.find? p :=
  List.find?_cons_of_neg l h

/-- `find?` on a cons whose head satisfies the predicate, with the
predicate explicit. -/
theorem findConsPos (p : Race → Bool) (a : Race) (l : List Race) (h : p a = true) :
    (a :: l).find? p = some a :=
  List.find?_cons_of_pos l h

/-- The best-time scan, seeded with a positive time, returns the first
race whose parsed time equals the running minimum, provided every
scanned race has a positive parsed time. -/
theorem bestRaceLoop_finds_first_min (l : List Race) : ∀ (best : Race) (b : ℤ),
    timeToSecondsJS best.time = some b → 0 < b →
    (∀ r ∈ l, ∃ v, timeToSecondsJS r.time = some v ∧ 0 < v) →
    some (bestRaceLoop best (some b) l)
      = (best :: l).find?
          (fun r => timeToSecondsJS r.time == some ((l.map tvOf).foldl min b)) := by
  induction l with
  | nil =>
    intro best b hb _ _
    simp [bestRaceLoop, List.find?, hb]
  | cons r rest ih =>
    intro best b hb hbpos hall
    obtain ⟨v, hv, hvpos⟩ := hall r (List.mem_cons_self r rest)
    have hrest : ∀ r' ∈ rest, ∃ v', timeToSecondsJS r'.time = some v' ∧ 0 < v' :=
      fun r' hr' => hall r' (List.mem_cons_of_mem _ hr')
    have htv : tvOf r = v := by simp [tvOf, hv]
    by_cases hlt : v < b
    · have hguard :
          (jsLt (timeToSecondsJS r.time) (some b) && jsGtZero (timeToSecondsJS r.time)) = true := by
        simp [jsLt, jsGtZero, hv, hlt, hvpos]
      have hmin : ((r :: rest).map tvOf).foldl min b = (rest.map tvOf).foldl min v := by
        rw [List.map_cons, List.foldl_cons, htv, min_eq_right hlt.le]
      have hmle : (rest.map tvOf).foldl min v ≤ v := foldlMin_le_init _ _
      have hne : ¬ (timeToSecondsJS best.time
          == some ((rest.map tvOf).foldl min v)) = true := by
        simp only [hb, beq_iff_eq, Option.some.injEq]
        omega
      rw [bestRaceLoop, if_pos hguard, hv, hmin,
        findConsNeg (fun r' => timeToSecondsJS r'.time
          == some ((rest.map tvOf).foldl min v)) best (r :: rest) hne]
      exact ih r v hv hvpos hrest
    · have hguard :
          (jsLt (timeToSecondsJS r.time) (some b) && jsGtZero (timeToSecondsJS r.time)) = false := by
        simp only [jsLt, jsGtZero, hv, Bool.and_eq_false_iff, decide_eq_false_iff_not, not_lt]
        left
        omega
      have hmin : ((r :: rest).map tvOf).foldl min b = (rest.map tvOf).foldl min b := by
        rw [List.map_cons, List.foldl_cons, htv, min_eq_left (le_of_not_lt hlt)]
      have hmle : (rest.map tvOf).foldl min b ≤ b := foldlMin_le_init _ _
      rw [bestRaceLoop, if_neg (by simp [hguard]), hmin]
      by_cases hpb : (fun r' => timeToSecondsJS r'.time
          == some ((rest.map tvOf).foldl min b)) best = true
      · rw [findConsPos (fun r' => timeToSecondsJS r'.time
            == some ((rest.map tvOf).foldl min b)) best (r :: rest) hpb,
          ih best b hb hbpos hrest,
          findConsPos (fun r' => timeToSecondsJS r'.time
            == some ((rest.map tvOf).foldl min b)) best rest hpb]
      · have hpr : ¬ (fun r' => timeToSecondsJS r'.time
            == some ((rest.map tvOf).foldl min b)) r = true := by
          simp only [hv, beq_iff_eq, Option.some.injEq]
          intro heq
          simp only [hb, beq_iff_eq, Option.some.injEq] at hpb
          omega
        rw [findConsNeg (fun r' => timeToSecondsJS r'.time
            == some ((rest.map tvOf).foldl min b)) best (r :: rest) hpb,
          findConsNeg (fun r' => timeToSecondsJS r'.time
            == some ((rest.map tvOf).foldl min b)) r rest hpr,
          ih best b hb hbpos hrest,
          findConsNeg (fun r' => timeToSecondsJS r'.time
            == some ((rest.map tvOf).foldl min b)) best rest hpb]

/-- C2 (amended): for a distance class with at least one race, when every
race of the class has a positive parsed time the best-times computation
returns the first-encountered race whose time equals the class minimum
(strict `<` keeps the earlier of tied races). -/
theorem best_time_first_min_amended (races : List Race) (target : ℚ)
    (hne : categoryRaces races target ≠ [])
    (hpos : ∀ r ∈ categoryRaces races target, jsGtZero (timeToSecondsJS r.time) = true) :
    bestTimesFor races target
      = (categoryRaces races target).find?
          (fun r => timeToSecondsJS r.time == some (minTv (categoryRaces races target))) := by
  have hall : ∀ r ∈ categoryRaces races target,
      ∃ v, timeToSecondsJS r.time = some v ∧ 0 < v := by
    intro r hr
    have hp := hpos r hr
    cases hts : timeToSecondsJS r.time with
    | none =>
      rw [hts] at hp
      simp [jsGtZero] at hp
    | some v =>
      rw [hts] at hp
      simp only [jsGtZero, decide_eq_true_eq] at hp
      exact ⟨v, rfl, hp⟩
  obtain ⟨r0, rest, hcat⟩ := List.exists_cons_of_ne_nil hne
  obtain ⟨v0, hv0, hv0pos⟩ := hall r0 (by rw [hcat]; exact List.mem_cons_self _ _)
  have htv0 : tvOf r0 = v0 := by simp [tvOf, hv0]
  unfold bestTimesFor
  rw [hcat]
  simp only [bestRaceOf]
  rw [hv0, bestRaceLoop_finds_first_min (r0 :: rest) r0 v0 hv0 hv0pos
    (by rw [← hcat]; exact hall)]
  have hm : ((r0 :: rest).map tvOf).foldl min v0 = minTv (r0 :: rest) := by
    rw [List.map_cons, List.foldl_cons, htv0, min_self, minTv, List.foldl_map, htv0]
  rw [hm]
  by_cases hp0 : (fun r => timeToSecondsJS r.time == some (minTv (r0 :: rest))) r0 = true
  · rw [findConsPos (fun r => timeToSecondsJS r.time == some (minTv (r0 :: rest)))
        r0 (r0 :: rest) hp0,
      findConsPos (fun r => timeToSecondsJS r.time == some (minTv (r0 :: rest)))
        r0 rest hp0]
  · rw [findConsNeg (fun r => timeToSecondsJS r.time == some (minTv (r0 :: rest)))
        r0 (r0 :: rest) hp0]

/-- Concrete instance of the amended best-time theorem: with a 3:45:00
and a 3:30:00 marathon, the scan returns the first race achieving the
12600-second minimum. -/
theorem best_time_first_min_amended_witness :
    categoryRaces [⟨("3:45:00").data, 131/5, 0⟩, ⟨("3:30:00").data, 131/5, 1⟩] (131/5) ≠ [] ∧
    (∀ r ∈ categoryRaces [⟨("3:45:00").data, 131/5, 0⟩, ⟨("3:30:00").data, 131/5, 1⟩] (131/5),
      jsGtZero (timeToSecondsJS r.time) = true) ∧
    bestTimesFor [⟨("3:45:00").data, 131/5, 0⟩, ⟨("3:30:00").data, 131/5, 1⟩] (131/5)
      = (categoryRaces [⟨("3:45:00").data, 131/5, 0⟩, ⟨("3:30:00").data, 131/5, 1⟩]
          (131/5)).find?
          (fun r => timeToSecondsJS r.time
            == some (minTv (categoryRaces
              [⟨("3:45:00").data, 131/5, 0⟩, ⟨("3:30:00").data, 131/5, 1⟩] (131/5)))) := by
  have hcat : categoryRaces [⟨("3:45:00").data, 131/5, 0⟩, ⟨("3:30:00").data, 131/5, 1⟩]
      (131/5) = [⟨("3:45:00").data, 131/5, 0⟩, ⟨("3:30:00").data, 131/5, 1⟩] := by
    unfold categoryRaces
    rw [List.filter_eq_self.mpr, List.filter_eq_self.mpr]
    · intro a ha
      rcases List.mem_cons.mp ha with h | h
      · subst h
        decide
      · rcases List.mem_cons.mp h with h' | h'
        · subst h'
          decide
        · simp at h'
    · intro a ha
      rcases List.mem_cons.mp ha with h | h
      · subst h
        simp only [decide_eq_true_eq, sub_self, abs_zero]
        norm_num
      · rcases List.mem_cons.mp h with h' | h'
        · subst h'
          simp only [decide_eq_true_eq, sub_self, abs_zero]
          norm_num
        · simp at h'
  have h1 : categoryRaces [⟨("3:45:00").data, 131/5, 0⟩, ⟨("3:30:00").data, 131/5, 1⟩]
      (131/5) ≠ [] := by
    rw [hcat]
    simp
  have h2 : ∀ r ∈ categoryRaces [⟨("3:45:00").data, 131/5, 0⟩, ⟨("3:30:00").data, 131/5, 1⟩]
      (131/5), jsGtZero (timeToSecondsJS r.time) = true := by
    rw [hcat]
    intro r hr
    rcases List.mem_cons.mp hr with h | h
    · subst h
      decide
    · rcases List.mem_cons.mp h with h' | h'
      · subst h'
        decide
      · simp at h'
  exact ⟨h1, h2, best_time_first_min_amended _ _ h1 h2⟩

/-- Concrete refutation of C2 as stated: a marathon list containing a
malformed time string whose parsed time is 0 — the scan returns the
3:45:00 race although the 0-second race has the smaller `timeSeconds`. -/
theorem best_time_first_min_counterexample :
    bestTimesFor [⟨("3:45:00").data, 131/5, 0⟩, ⟨("x").data, 131/5, 1⟩] (131/5)
      = some ⟨("3:45:00").data, 131/5, 0⟩ ∧
    timeToSecondsJS ("x").data = some 0 ∧
    timeToSecondsJS ("3:45:00").data = some 13500 ∧ (0 : ℤ) < 13500 := by
  have hcat : categoryRaces [⟨("3:45:00").data, 131/5, 0⟩, ⟨("x").data, 131/5, 1⟩]
      (131/5) = [⟨("3:45:00").data, 131/5, 0⟩, ⟨("x").data, 131/5, 1⟩] := by
    unfold categoryRaces
    rw [List.filter_eq_self.mpr, List.filter_eq_self.mpr]
    · intro a ha
      rcases List.mem_cons.mp ha with h | h
      · subst h
        decide
      · rcases List.mem_cons.mp h with h' | h'
        · subst h'
          decide
        · simp at h'
    · intro a ha
      rcases List.mem_cons.mp ha with h | h
      · subst h
        simp only [decide_eq_true_eq, sub_self, abs_zero]
        norm_num
      · rcases List.mem_cons.mp h with h' | h'
        · subst h'
          simp only [decide_eq_true_eq, sub_self, abs_zero]
          norm_num
        · simp at h'
  refine ⟨?_, by decide, by decide, by decide⟩
  unfold bestTimesFor
  rw [hcat]
  have e1 : timeToSecondsJS ("3:45:00").data = some 13500 := by decide
  have e2 : timeToSecondsJS ("x").data = some 0 := by decide
  simp [bestRaceOf, bestRaceLoop, e1, e2, jsLt, jsGtZero]

/-- Inserting keeps one more element. -/
theorem insertByDate_length (r : Race) : ∀ l : List Race,
    (insertByDate r l).length = l.length + 1 := by
  intro l
  induction l with
  | nil => rfl
  | cons x xs ih =>
    rw [insertByDate]
    split_ifs
    · rfl
    · simp [ih]

/-- The date sort keeps the number of rows. -/
theorem sortByDate_length (l : List Race) : (sortByDate l).length = l.length := by
  induction l with
  | nil => rfl
  | cons x xs ih =>
    rw [sortByDate, List.foldr_cons, insertByDate_length]
    rw [sortByDate] at ih
    rw [ih]
    rfl

/-- Inserting into a date-sorted list keeps it date-sorted. -/
theorem insertByDate_chain (r : Race) : ∀ l : List Race,
    List.Chain' (fun a b => a.dateMs ≤ b.dateMs) l →
    List.Chain' (fun a b => a.dateMs ≤ b.dateMs) (insertByDate r l) := by
  intro l
  induction l with
  | nil =>
    intro _
    simp [insertByDate]
  | cons x xs ih =>
    intro h
    rw [insertByDate]
    split_ifs with hle
    · exact List.Chain'.cons hle h
    · have hx : x.dateMs ≤ r.dateMs := le_of_not_le hle
      have htail := ih h.tail
      rw [List.chain'_cons']
      refine ⟨?_, htail⟩
      intro b hb
      cases xs with
      | nil =>
        simp [insertByDate] at hb
        subst hb
        exact hx
      | cons y ys =>
        rw [insertByDate] at hb
        split_ifs at hb with hle2
        · simp at hb
          subst hb
          exact hx
        · simp at hb
          subst hb
          exact (List.chain'_cons.mp h).1

/-- The progression sort produces a date-ascending list. -/
theorem sortByDate_chain (l : List Race) :
    List.Chain' (fun a b => a.dateMs ≤ b.dateMs) (sortByDate l) := by
  induction l with
  | nil => simp [sortByDate]
  | cons x xs ih =>
    rw [sortByDate, List.foldr_cons]
    exact insertByDate_chain x _ ih

/-- `getD` with an in-range index reads the element. -/
theorem getDInt (ts : List ℤ) (k : ℕ) (h : k < ts.length) : ts.getD k 0 = ts[k] := by
  rw [List.getD_eq_getElem?_getD, List.getElem?_eq_getElem h]
  rfl

/-- The running personal best is bounded by every earlier time. -/
theorem personalBestAt_le (ts : List ℤ) (i : ℕ) (hi : i < ts.length) :
    ∀ k, k < i + 1 → personalBestAt ts i (ts.getD i 0) ≤ ts.getD k 0 := by
  intro k hk
  unfold personalBestAt
  split_ifs with h0
  · subst h0
    interval_cases k
    exact le_refl _
  · rcases Nat.lt_or_ge k i with hki | hki
    · have hkts : k < ts.length := by omega
      have hkl : k < (ts.take i).length := by
        simp only [List.length_take]
        omega
      have hmem : ts.getD k 0 ∈ ts.take i := by
        have h1 : (ts.take i)[k] ∈ ts.take i := List.getElem_mem hkl
        have h2 : (ts.take i)[k] = ts[k] := @List.getElem_take _ ts i k hkl
        rw [h2, ← getDInt ts k hkts] at h1
        exact h1
      exact foldlMin_le_mem _ _ _ hmem
    · have hk' : k = i := by omega
      subst hk'
      exact foldlMin_le_init _ _

/-- The running personal best is attained at some index up to the
current one. -/
theorem personalBestAt_attained (ts : List ℤ) (i : ℕ) (hi : i < ts.length) :
    ∃ k, k < i + 1 ∧ personalBestAt ts i (ts.getD i 0) = ts.getD k 0 := by
  unfold personalBestAt
  split_ifs with h0
  · exact ⟨i, by omega, rfl⟩
  · rcases foldlMin_eq_init_or_mem (ts.take i) (ts.getD i 0) with h | h
    · exact ⟨i, by omega, h⟩
    · obtain ⟨k, hk, hkeq⟩ := List.mem_iff_getElem.mp h
      have hki : k < i := by
        have hk' := hk
        simp only [List.length_take] at hk'
        omega
      have hkts : k < ts.length := by omega
      refine ⟨k, by omega, ?_⟩
      have h2 : (ts.take i)[k] = ts[k] := @List.getElem_take _ ts i k hk
      rw [getDInt ts k hkts, ← h2]
      exact hkeq.symm

/-- Row `i` of the progression series pairs `i + 1`, the `i`-th time and
the running personal best over the first `i + 1` times. -/
theorem raceProgressData_entry (races : List Race) (target : ℚ) (i : ℕ)
    (hi : i < (raceProgressData races target).length) :
    (raceProgressData races target).getD i ⟨0, 0, 0⟩
      = ⟨i + 1, (progressTimes races target).getD i 0,
          personalBestAt (progressTimes races target) i
            ((progressTimes races target).getD i 0)⟩ := by
  have hlen : (raceProgressData races target).length
      = (progressTimes races target).length := by
    simp [raceProgressData, progressTimes]
  have hi' : i < (progressTimes races target).length := hlen ▸ hi
  show ((List.range (progressTimes races target).length).map
      (fun k => (⟨k + 1, (progressTimes races target).getD k 0,
        personalBestAt (progressTimes races target) k
          ((progressTimes races target).getD k 0)⟩ : ProgressEntry))).getD i ⟨0, 0, 0⟩ = _
  rw [List.getD_eq_getElem?_getD, List.getElem?_eq_getElem (by simpa using hi'),
    List.getElem_map, List.getElem_range]
  rfl

/-- C3: at every row the running personal best is the minimum of the
times up to that row (it is a lower bound attained at some earlier row),
it never exceeds the row's own time, it is non-increasing with the row
index, and the underlying race list is sorted by date ascending. -/
theorem progression_running_min (races : List Race) (target : ℚ) (i j : ℕ)
    (hij : i ≤ j) (hj : j < (raceProgressData races target).length) :
    (∀ k, k < i + 1 →
      ((raceProgressData races target).getD i ⟨0, 0, 0⟩).personalBest
        ≤ (progressTimes races target).getD k 0) ∧
    (∃ k, k < i + 1 ∧
      ((raceProgressData races target).getD i ⟨0, 0, 0⟩).personalBest
        = (progressTimes races target).getD k 0) ∧
    ((raceProgressData races target).getD i ⟨0, 0, 0⟩).personalBest
      ≤ ((raceProgressData races target).getD i ⟨0, 0, 0⟩).timeSeconds ∧
    ((raceProgressData races target).getD j ⟨0, 0, 0⟩).personalBest
      ≤ ((raceProgressData races target).getD i ⟨0, 0, 0⟩).personalBest ∧
    List.Chain' (fun a b => a.dateMs ≤ b.dateMs)
      (sortByDate (progressFiltered races target)) := by
  have hlen : (raceProgressData races target).length
      = (progressTimes races target).length := by
    simp [raceProgressData, progressTimes]
  have hi : i < (raceProgressData races target).length := Nat.lt_of_le_of_lt hij hj
  have hits : i < (progressTimes races target).length := hlen ▸ hi
  have hjts : j < (progressTimes races target).length := hlen ▸ hj
  rw [raceProgressData_entry races target i hi, raceProgressData_entry races target j hj]
  refine ⟨personalBestAt_le _ i hits, personalBestAt_attained _ i hits, ?_, ?_,
    sortByDate_chain _⟩
  · exact personalBestAt_le _ i hits i (by omega)
  · obtain ⟨k, hk, hkeq⟩ := personalBestAt_attained _ i hits
    show personalBestAt (progressTimes races target) j
        ((progressTimes races target).getD j 0)
      ≤ personalBestAt (progressTimes races target) i
        ((progressTimes races target).getD i 0)
    rw [hkeq]
    exact personalBestAt_le _ j hjts k (by omega)

/-- Concrete instance of the progression theorem on the 3:45:00 /
3:30:00 / 4:00:00 marathon scenario at rows 1 and 2. -/
theorem progression_running_min_witness :
    (1 : ℕ) ≤ 2 ∧
    2 < (raceProgressData [⟨("3:45:00").data, 131/5, 0⟩, ⟨("3:30:00").data, 131/5, 1⟩,
      ⟨("4:00:00").data, 131/5, 2⟩] (131/5)).length ∧
    ((raceProgressData [⟨("3:45:00").data, 131/5, 0⟩, ⟨("3:30:00").data, 131/5, 1⟩,
        ⟨("4:00:00").data, 131/5, 2⟩] (131/5)).getD 2 ⟨0, 0, 0⟩).personalBest
      ≤ ((raceProgressData [⟨("3:45:00").data, 131/5, 0⟩, ⟨("3:30:00").data, 131/5, 1⟩,
        ⟨("4:00:00").data, 131/5, 2⟩] (131/5)).getD 1 ⟨0, 0, 0⟩).personalBest := by
  have hpf : progressFiltered [⟨("3:45:00").data, 131/5, 0⟩, ⟨("3:30:00").data, 131/5, 1⟩,
      ⟨("4:00:00").data, 131/5, 2⟩] (131/5)
      = [⟨("3:45:00").data, 131/5, 0⟩, ⟨("3:30:00").data, 131/5, 1⟩,
        ⟨("4:00:00").data, 131/5, 2⟩] := by
    unfold progressFiltered
    rw [List.filter_eq_self.mpr, List.filter_eq_self.mpr]
    · intro a ha
      rcases List.mem_cons.mp ha with h | h
      · subst h
        refine (Bool.and_eq_true _ _).mpr ⟨?_, by decide⟩
        simp only [decide_eq_true_eq, sub_self, abs_zero]
        norm_num
      · rcases List.mem_cons.mp h with h' | h'
        · subst h'
          refine (Bool.and_eq_true _ _).mpr ⟨?_, by decide⟩
          simp only [decide_eq_true_eq, sub_self, abs_zero]
          norm_num
        · rcases List.mem_cons.mp h' with h'' | h''
          · subst h''
            refine (Bool.and_eq_true _ _).mpr ⟨?_, by decide⟩
            simp only [decide_eq_true_eq, sub_self, abs_zero]
            norm_num
          · simp at h''
    · intro a ha
      have ha' := (List.mem_filter.mp ha).1
      rcases List.mem_cons.mp ha' with h | h
      · subst h
        decide
      · rcases List.mem_cons.mp h with h' | h'
        · subst h'
          decide
        · rcases List.mem_cons.mp h' with h'' | h''
          · subst h''
            decide
          · simp at h''
  have hj : 2 < (raceProgressData [⟨("3:45:00").data, 131/5, 0⟩,
      ⟨("3:30:00").data, 131/5, 1⟩, ⟨("4:00:00").data, 131/5, 2⟩] (131/5)).length := by
    have hl : (raceProgressData [⟨("3:45:00").data, 131/5, 0⟩,
        ⟨("3:30:00").data, 131/5, 1⟩, ⟨("4:00:00").data, 131/5, 2⟩] (131/5)).length
        = (progressTimes [⟨("3:45:00").data, 131/5, 0⟩,
          ⟨("3:30:00").data, 131/5, 1⟩, ⟨("4:00:00").data, 131/5, 2⟩] (131/5)).length := by
      simp [raceProgressData, progressTimes]
    rw [hl]
    simp [progressTimes, hpf, sortByDate_length]
  exact ⟨by decide, hj,
    (progression_running_min [⟨("3:45:00").data, 131/5, 0⟩, ⟨("3:30:00").data, 131/5, 1⟩,
      ⟨("4:00:00").data, 131/5, 2⟩] (131/5) 1 2 (by decide) hj).2.2.2.1⟩

/-- The next calendar day is strictly later. -/
theorem nextDate_lt (d : CalDate) : dltP d (nextDate d) := by
  unfold nextDate dltP
  split_ifs with h1 h2
  · right
    refine ⟨rfl, Or.inr ⟨rfl, ?_⟩⟩
    show d.day < d.day + 1
    omega
  · left
    show d.year < d.year + 1
    omega
  · right
    refine ⟨rfl, Or.inl ?_⟩
    show d.month < d.month + 1
    omega

/-- Chronological strict order is transitive. -/
theorem dltP_trans (a b c : CalDate) (hab : dltP a b) (hbc : dltP b c) : dltP a c := by
  unfold dltP at *
  omega

/-- Adding at least one day moves strictly later. -/
theorem addDays_lt (d : CalDate) : ∀ n : ℕ, dltP d (addDays (n + 1) d) := by
  intro n
  induction n with
  | zero =>
    show dltP d (nextDate^[1] d)
    rw [Function.iterate_one]
    exact nextDate_lt d
  | succ k ih =>
    have h : addDays (k + 1 + 1) d = nextDate (addDays (k + 1) d) := by
      unfold addDays
      rw [Function.iterate_succ_apply']
    rw [h]
    exact dltP_trans _ _ _ ih (nextDate_lt _)

/-- The head of a week enumeration, when present, is its start. -/
theorem weeksFrom_head (stop : CalDate) (fuel : ℕ) (w : CalDate) :
    (weeksFrom stop fuel w).head? = none ∨ (weeksFrom stop fuel w).head? = some w := by
  cases fuel with
  | zero =>
    left
    rfl
  | succ f =>
    rw [weeksFrom]
    split_ifs
    · right
      rfl
    · left
      rfl

/-- The week starts of an interval are strictly chronological. -/
theorem weeksFrom_chain (stop : CalDate) : ∀ (fuel : ℕ) (w : CalDate),
    List.Chain' dltP (weeksFrom stop fuel w) := by
  intro fuel
  induction fuel with
  | zero =>
    intro w
    simp [weeksFrom]
  | succ f ih =>
    intro w
    rw [weeksFrom]
    split_ifs with h
    · rw [List.chain'_cons']
      refine ⟨?_, ih (addDays 7 w)⟩
      intro b hb
      rcases weeksFrom_head stop f (addDays 7 w) with hh | hh
      · rw [hh] at hb
        simp at hb
      · rw [hh] at hb
        simp at hb
        subst hb
        exact addDays_lt w 6
    · simp

/-- The 7 days of a week are strictly chronological. -/
theorem daysOfWeek_chain (ws : CalDate) : List.Chain' dltP (daysOfWeek ws) := by
  have h : ∀ i : ℕ, dltP (addDays i ws) (addDays (i + 1) ws) := by
    intro i
    have he : addDays (i + 1) ws = nextDate (addDays i ws) := by
      unfold addDays
      rw [Function.iterate_succ_apply']
    rw [he]
    exact nextDate_lt _
  show List.Chain' dltP ((List.range 7).map (fun i => addDays i ws))
  rw [show List.range 7 = [0, 1, 2, 3, 4, 5, 6] from rfl]
  simp only [List.map_cons, List.map_nil]
  exact List.Chain'.cons (h 0) (List.Chain'.cons (h 1) (List.Chain'.cons (h 2)
    (List.Chain'.cons (h 3) (List.Chain'.cons (h 4) (List.Chain'.cons (h 5)
      (List.chain'_singleton _))))))

/-- One decimal place of zero is zero. -/
theorem round10_zero : round10 0 = 0 := by
  unfold round10 jsRound
  rw [show (0:ℚ) * 10 + 1/2 = 1/2 by norm_num]
  rw [show ⌊(1/2 : ℚ)⌋ = 0 by
    rw [Int.floor_eq_zero_iff]
    constructor <;> norm_num]
  norm_num

/-- A month with no matching activities produces the all-zero bucket. -/
theorem monthBucket_empty (acts : List Activity) (y : ℤ) (m : ℕ)
    (h : monthMatching acts y m = []) :
    monthBucket acts y m = ⟨m, 0, 0, 0, 0, 0, none, none⟩ := by
  unfold monthBucket
  rw [h]
  simp [milesSum, hoursSum, paceOf, jsTruthyRound, round10_zero]

/-- A week with no matching activities produces the all-zero bucket. -/
theorem weekBucket_empty (macts : List Activity) (idx : ℕ) (ws : CalDate)
    (h : weekMatching macts ws = []) :
    weekBucket macts idx ws = ⟨idx, ws, 0, 0, 0, 0, 0, none, none⟩ := by
  unfold weekBucket
  rw [h]
  simp [milesSum, hoursSum, paceOf, jsTruthyRound, round10_zero]

/-- A day with no matching activities produces the all-zero bucket. -/
theorem dayBucket_empty (wacts : List Activity) (day : CalDate)
    (h : dayMatching wacts day = []) :
    dayBucket wacts day = ⟨day, 0, 0, 0, 0, 0, none, none⟩ := by
  unfold dayBucket
  rw [h]
  simp [milesSum, hoursSum, paceOf, jsTruthyRound, round10_zero]

/-- C5: the drill-down engine is total over its calendar range — exactly
12 monthly buckets numbered 0–11 in order, one weekly bucket per week of
the month interval with strictly chronological week starts, exactly 7
daily buckets on the chronological days of the selected week, and every
period with no matching activities still yields a bucket with zero run
count, miles and hours and null pace fields. -/
theorem bucket_engine_totality (acts : List Activity) (y : ℤ) (m : ℕ) (ws : CalDate) :
    (monthlyData acts y).length = 12 ∧
    (monthlyData acts y).map MonthBucket.monthNumber = List.range 12 ∧
    (∀ m', m' < 12 → monthMatching (yearActivities acts y) y m' = [] →
      (monthlyData acts y).getD m' ⟨0, 0, 0, 0, 0, 0, none, none⟩
        = ⟨m', 0, 0, 0, 0, 0, none, none⟩) ∧
    (weeklyData acts y m).map WeekBucket.weekStart
      = eachWeekOfIntervalD ⟨y, m, 1⟩ ⟨y, m + 1, 0⟩ ∧
    List.Chain' dltP (eachWeekOfIntervalD ⟨y, m, 1⟩ ⟨y, m + 1, 0⟩) ∧
    (∀ b ∈ weeklyData acts y m,
      weekMatching (monthActivities acts y m) b.weekStart = [] →
      b = ⟨b.weekIndex, b.weekStart, 0, 0, 0, 0, 0, none, none⟩) ∧
    (dailyData acts ws).length = 7 ∧
    (dailyData acts ws).map DayBucket.fullDate = daysOfWeek ws ∧
    List.Chain' dltP (daysOfWeek ws) ∧
    (∀ b ∈ dailyData acts ws,
      dayMatching (weekActivitiesFor acts ws) b.fullDate = [] →
      b = ⟨b.fullDate, 0, 0, 0, 0, 0, none, none⟩) := by
  refine ⟨by simp [monthlyData], ?_, ?_, ?_, ?_, ?_, by simp [dailyData, daysOfWeek], ?_,
    daysOfWeek_chain ws, ?_⟩
  · simp only [monthlyData, List.map_map]
    have hf : (MonthBucket.monthNumber ∘ fun m' =>
        monthBucket (yearActivities acts y) y m') = id := by
      funext m'
      rfl
    rw [hf, List.map_id]
  · intro m' hm' hempty
    have hget : (monthlyData acts y).getD m' ⟨0, 0, 0, 0, 0, 0, none, none⟩
        = monthBucket (yearActivities acts y) y m' := by
      rw [monthlyData, List.getD_eq_getElem?_getD,
        List.getElem?_eq_getElem (by simpa using hm'), List.getElem_map, List.getElem_range]
      rfl
    rw [hget]
    exact monthBucket_empty _ _ _ hempty
  · simp only [weeklyData, List.map_map]
    have hf : (WeekBucket.weekStart ∘ fun p =>
        weekBucket (monthActivities acts y m) p.1 p.2)
        = Prod.snd := by
      funext p
      rfl
    rw [hf]
    exact List.enum_map_snd _
  · exact weeksFrom_chain _ _ _
  · intro b hb hempty
    obtain ⟨p, hp, rfl⟩ := List.mem_map.mp hb
    have hws : (weekBucket (monthActivities acts y m) p.1 p.2).weekStart = p.2 := rfl
    rw [hws] at hempty
    rw [weekBucket_empty _ _ _ hempty]
  · simp only [dailyData, List.map_map]
    have hf : (DayBucket.fullDate ∘ fun day =>
        dayBucket (weekActivitiesFor acts ws) day) = id := by
      funext day
      rfl
    rw [hf, List.map_id]
  · intro b hb hempty
    obtain ⟨day, hd, rfl⟩ := List.mem_map.mp hb
    have hfd : (dayBucket (weekActivitiesFor acts ws) day).fullDate = day := rfl
    rw [hfd] at hempty
    rw [dayBucket_empty _ _ hempty]

/-- Concrete instance of the bucket-engine theorem: with no activities,
April 2024 still yields the all-zero monthly bucket at index 3. -/
theorem bucket_engine_totality_witness :
    ((3 : ℕ) < 12) ∧ monthMatching (yearActivities [] 2024) 2024 3 = [] ∧
    (monthlyData [] 2024).getD 3 ⟨0, 0, 0, 0, 0, 0, none, none⟩
      = ⟨3, 0, 0, 0, 0, 0, none, none⟩ := by
  have h1 : (3 : ℕ) < 12 := by decide
  have h2 : monthMatching (yearActivities [] 2024) 2024 3 = [] := rfl
  exact ⟨h1, h2, (bucket_engine_totality [] 2024 0 ⟨2024, 0, 7⟩).2.2.1 3 h1 h2⟩

/-- The gated, rounded pace expression shared by every bucket builder:
null without positive mileage, null on an exactly-zero quotient, and the
rounded quotient otherwise. -/
theorem jsTruthyRound_paceOf (miles hours : ℚ) :
    (¬ 0 < miles → jsTruthyRound (paceOf miles hours) = none) ∧
    (0 < miles → (hours * 60) / miles = 0 → jsTruthyRound (paceOf miles hours) = none) ∧
    (0 < miles → (hours * 60) / miles ≠ 0 →
      jsTruthyRound (paceOf miles hours) = some (round10 ((hours * 60) / miles))) := by
  refine ⟨?_, ?_, ?_⟩
  · intro h
    unfold paceOf
    rw [if_neg h]
    rfl
  · intro hm hq
    unfold paceOf
    rw [if_pos hm]
    show (if (hours * 60) / miles ≠ 0 then some (round10 ((hours * 60) / miles))
      else none) = none
    rw [if_neg (fun hn => hn hq)]
  · intro hm hq
    unfold paceOf
    rw [if_pos hm]
    show (if (hours * 60) / miles ≠ 0 then some (round10 ((hours * 60) / miles))
      else none) = some (round10 ((hours * 60) / miles))
    rw [if_pos hq]

/-- The trail pace field of a monthly bucket, unfolded. -/
theorem monthBucket_trailPace (acts : List Activity) (y : ℤ) (m : ℕ) :
    (monthBucket acts y m).trailPace
      = jsTruthyRound (paceOf
          (milesSum ((monthMatching acts y m).filter (fun a => isTrailRun a)))
          (hoursSum ((monthMatching acts y m).filter (fun a => isTrailRun a)))) := rfl

/-- The road pace field of a monthly bucket, unfolded. -/
theorem monthBucket_roadPace (acts : List Activity) (y : ℤ) (m : ℕ) :
    (monthBucket acts y m).roadPace
      = jsTruthyRound (paceOf
          (milesSum ((monthMatching acts y m).filter (fun a => !isTrailRun a)))
          (hoursSum ((monthMatching acts y m).filter (fun a => !isTrailRun a)))) := rfl

/-- C6 (amended): a monthly bucket's trail/road pace is null when the
subset mileage is zero and is the rounded (hours × 60) / miles when the
mileage is positive and the quotient nonzero; the season-level average
pace, however, is guarded on the total hours: it is the 0 sentinel when
hours are not positive, the rounded quotient when both are nonzero, and a
division of positive hours by zero miles (JavaScript Infinity, modelled
`none`) when the year has time but no distance. -/
theorem pace_guard_amended (acts : List Activity) (y : ℤ) (m : ℕ) :
    (milesSum ((monthMatching (yearActivities acts y) y m).filter
        (fun a => isTrailRun a)) = 0 →
      (monthBucket (yearActivities acts y) y m).trailPace = none) ∧
    (0 < milesSum ((monthMatching (yearActivities acts y) y m).filter
        (fun a => isTrailRun a)) →
      (hoursSum ((monthMatching (yearActivities acts y) y m).filter
          (fun a => isTrailRun a)) * 60)
        / milesSum ((monthMatching (yearActivities acts y) y m).filter
          (fun a => isTrailRun a)) ≠ 0 →
      (monthBucket (yearActivities acts y) y m).trailPace
        = some (round10 ((hoursSum ((monthMatching (yearActivities acts y) y m).filter
            (fun a => isTrailRun a)) * 60)
          / milesSum ((monthMatching (yearActivities acts y) y m).filter
            (fun a => isTrailRun a))))) ∧
    (milesSum ((monthMatching (yearActivities acts y) y m).filter
        (fun a => !isTrailRun a)) = 0 →
      (monthBucket (yearActivities acts y) y m).roadPace = none) ∧
    (0 < milesSum ((monthMatching (yearActivities acts y) y m).filter
        (fun a => !isTrailRun a)) →
      (hoursSum ((monthMatching (yearActivities acts y) y m).filter
          (fun a => !isTrailRun a)) * 60)
        / milesSum ((monthMatching (yearActivities acts y) y m).filter
          (fun a => !isTrailRun a)) ≠ 0 →
      (monthBucket (yearActivities acts y) y m).roadPace
        = some (round10 ((hoursSum ((monthMatching (yearActivities acts y) y m).filter
            (fun a => !isTrailRun a)) * 60)
          / milesSum ((monthMatching (yearActivities acts y) y m).filter
            (fun a => !isTrailRun a))))) ∧
    (¬ 0 < hoursSum (yearActivities acts y) → runningStatsAvgPace acts y = some 0) ∧
    (0 < hoursSum (yearActivities acts y) → milesSum (yearActivities acts y) = 0 →
      runningStatsAvgPace acts y = none) ∧
    (0 < hoursSum (yearActivities acts y) → milesSum (yearActivities acts y) ≠ 0 →
      runningStatsAvgPace acts y
        = some (round10 ((hoursSum (yearActivities acts y) * 60)
            / milesSum (yearActivities acts y)))) := by
  refine ⟨?_, ?_, ?_, ?_, ?_, ?_, ?_⟩
  · intro h
    rw [monthBucket_trailPace]
    exact (jsTruthyRound_paceOf _ _).1 (by rw [h]; exact lt_irrefl 0)
  · intro hm hq
    rw [monthBucket_trailPace]
    exact (jsTruthyRound_paceOf _ _).2.2 hm hq
  · intro h
    rw [monthBucket_roadPace]
    exact (jsTruthyRound_paceOf _ _).1 (by rw [h]; exact lt_irrefl 0)
  · intro hm hq
    rw [monthBucket_roadPace]
    exact (jsTruthyRound_paceOf _ _).2.2 hm hq
  · intro h
    unfold runningStatsAvgPace
    rw [if_neg h]
  · intro hh hm
    unfold runningStatsAvgPace
    rw [if_pos hh, if_pos hm]
  · intro hh hm
    unfold runningStatsAvgPace
    rw [if_pos hh, if_neg hm]

/-- Concrete instance of the pace-guard theorem: with no activities, the
January trail pace is null and the season average pace is the 0
sentinel. -/
theorem pace_guard_amended_witness :
    milesSum ((monthMatching (yearActivities [] 2024) 2024 0).filter
      (fun a => isTrailRun a)) = 0 ∧
    (¬ 0 < hoursSum (yearActivities [] 2024)) ∧
    (monthBucket (yearActivities [] 2024) 2024 0).trailPace = none ∧
    runningStatsAvgPace [] 2024 = some 0 := by
  have h2 : milesSum ((monthMatching (yearActivities [] 2024) 2024 0).filter
      (fun a => isTrailRun a)) = 0 := rfl
  have h3 : ¬ 0 < hoursSum (yearActivities [] 2024) := by
    rw [show hoursSum (yearActivities [] 2024) = 0 from rfl]
    exact lt_irrefl 0
  exact ⟨h2, h3, (pace_guard_amended [] 2024 0).1 h2,
    (pace_guard_amended [] 2024 0).2.2.2.2.1 h3⟩

/-- Concrete refutation of C6 as stated: an activity with a positive
moving time and zero distance drives the season average pace through a
division by zero mileage (Infinity, not the 0 sentinel), and an activity
with positive mileage and zero moving time yields a null road pace where
the claimed formula gives 0. -/
theorem pace_guard_counterexample :
    runningStatsAvgPace [⟨("Run").data, ⟨2020, 0, 15⟩, 0, 0, 3600, 0, 0⟩] 2020 = none ∧
    (monthBucket [⟨("Run").data, ⟨2020, 0, 15⟩, 0, 17, 0, 0, 0⟩] 2020 0).roadPace = none ∧
    milesSum ((monthMatching [⟨("Run").data, ⟨2020, 0, 15⟩, 0, 17, 0, 0, 0⟩] 2020 0).filter
      (fun a => !isTrailRun a)) = 17 := by
  have hya : yearActivities [⟨("Run").data, ⟨2020, 0, 15⟩, 0, 0, 3600, 0, 0⟩] 2020
      = [⟨("Run").data, ⟨2020, 0, 15⟩, 0, 0, 3600, 0, 0⟩] := by
    unfold yearActivities
    rw [List.filter_eq_self.mpr]
    intro x hx
    rcases List.mem_cons.mp hx with h | h
    · subst h
      decide
    · simp at h
  have hmm : monthMatching [⟨("Run").data, ⟨2020, 0, 15⟩, 0, 17, 0, 0, 0⟩] 2020 0
      = [⟨("Run").data, ⟨2020, 0, 15⟩, 0, 17, 0, 0, 0⟩] := by
    unfold monthMatching
    rw [List.filter_eq_self.mpr]
    intro x hx
    rcases List.mem_cons.mp hx with h | h
    · subst h
      decide
    · simp at h
  have hroad : isTrailRun ⟨("Run").data, ⟨2020, 0, 15⟩, 0, 17, 0, 0, 0⟩ = false := by
    unfold isTrailRun totalDistanceOf
    norm_num
  have hfilter : (monthMatching [⟨("Run").data, ⟨2020, 0, 15⟩, 0, 17, 0, 0, 0⟩] 2020 0).filter
      (fun a => !isTrailRun a) = [⟨("Run").data, ⟨2020, 0, 15⟩, 0, 17, 0, 0, 0⟩] := by
    rw [hmm, List.filter_eq_self.mpr]
    intro x hx
    rcases List.mem_cons.mp hx with h | h
    · subst h
      rw [hroad]
      rfl
    · simp at h
  have hmiles : milesSum [(⟨("Run").data, ⟨2020, 0, 15⟩, 0, 17, 0, 0, 0⟩ : Activity)] = 17 := by
    unfold milesSum totalDistanceOf
    norm_num
  have hhours : hoursSum [(⟨("Run").data, ⟨2020, 0, 15⟩, 0, 17, 0, 0, 0⟩ : Activity)] = 0 := by
    unfold hoursSum hoursOf
    norm_num
  refine ⟨?_, ?_, ?_⟩
  · simp only [runningStatsAvgPace]
    rw [hya]
    have hm0 : milesSum [(⟨("Run").data, ⟨2020, 0, 15⟩, 0, 0, 3600, 0, 0⟩ : Activity)] = 0 := by
      unfold milesSum totalDistanceOf
      norm_num
    have hh1 : hoursSum [(⟨("Run").data, ⟨2020, 0, 15⟩, 0, 0, 3600, 0, 0⟩ : Activity)] = 1 := by
      unfold hoursSum hoursOf
      norm_num
    rw [hm0, hh1, if_pos (by norm_num : (0:ℚ) < 1), if_pos rfl]
  · rw [monthBucket_roadPace, hfilter, hmiles, hhours]
    refine (jsTruthyRound_paceOf 17 0).2.1 (by norm_num) (by norm_num)
  · rw [hfilter, hmiles]

/-- Hours sums are nonnegative when every moving time is. -/
theorem hoursSum_nonneg (l : List Activity) (h : ∀ a ∈ l, 0 ≤ a.movingTime) :
    0 ≤ hoursSum l := by
  unfold hoursSum
  apply List.sum_nonneg
  intro x hx
  obtain ⟨a, ha, rfl⟩ := List.mem_map.mp hx
  exact div_nonneg (h a ha) (by norm_num)

/-- Rounding to one decimal preserves nonnegativity. -/
theorem round10_nonneg (q : ℚ) (h : 0 ≤ q) : 0 ≤ round10 q := by
  unfold round10 jsRound
  apply div_nonneg _ (by norm_num)
  have hf : (0 : ℤ) ≤ ⌊q * 10 + 1/2⌋ := by
    apply Int.le_floor.mpr
    push_cast
    linarith
  exact_mod_cast hf

/-- The gated rounded pace of a subset with nonnegative hours is null or
nonnegative. -/
theorem pace_nonneg_or_none (miles hours : ℚ) (hh : 0 ≤ hours) :
    jsTruthyRound (paceOf miles hours) = none ∨
      ∃ q, jsTruthyRound (paceOf miles hours) = some q ∧ 0 ≤ q := by
  unfold paceOf
  split_ifs with hm
  · by_cases hq : (hours * 60) / miles = 0
    · left
      show (if (hours * 60) / miles ≠ 0 then some (round10 ((hours * 60) / miles))
        else none) = none
      rw [if_neg (fun hn => hn hq)]
    · right
      refine ⟨round10 ((hours * 60) / miles), ?_, round10_nonneg _ ?_⟩
      · show (if (hours * 60) / miles ≠ 0 then some (round10 ((hours * 60) / miles))
          else none) = some (round10 ((hours * 60) / miles))
        rw [if_pos hq]
      · exact div_nonneg (mul_nonneg hh (by norm_num)) (le_of_lt hm)
  · left
    rfl

/-- The trail pace field of a weekly bucket, unfolded. -/
theorem weekBucket_trailPace (macts : List Activity) (idx : ℕ) (ws : CalDate) :
    (weekBucket macts idx ws).trailPace
      = jsTruthyRound (paceOf
          (milesSum ((weekMatching macts ws).filter (fun a => isTrailRun a)))
          (hoursSum ((weekMatching macts ws).filter (fun a => isTrailRun a)))) := rfl

/-- The road pace field of a weekly bucket, unfolded. -/
theorem weekBucket_roadPace (macts : List Activity) (idx : ℕ) (ws : CalDate) :
    (weekBucket macts idx ws).roadPace
      = jsTruthyRound (paceOf
          (milesSum ((weekMatching macts ws).filter (fun a => !isTrailRun a)))
          (hoursSum ((weekMatching macts ws).filter (fun a => !isTrailRun a)))) := rfl

/-- The trail pace field of a daily bucket, unfolded. -/
theorem dayBucket_trailPace (wacts : List Activity) (day : CalDate) :
    (dayBucket wacts day).trailPace
      = jsTruthyRound (paceOf
          (milesSum ((dayMatching wacts day).filter (fun a => isTrailRun a)))
          (hoursSum ((dayMatching wacts day).filter (fun a => isTrailRun a)))) := rfl

/-- The road pace field of a daily bucket, unfolded. -/
theorem dayBucket_roadPace (wacts : List Activity) (day : CalDate) :
    (dayBucket wacts day).roadPace
      = jsTruthyRound (paceOf
          (milesSum ((dayMatching wacts day).filter (fun a => !isTrailRun a)))
          (hoursSum ((dayMatching wacts day).filter (fun a => !isTrailRun a)))) := rfl

/-- The trail pace field of a yearly bucket, unfolded. -/
theorem yearBucket_trailPace (acts : List Activity) (yr : ℤ) :
    (yearBucket acts yr).trailPace
      = jsTruthyRound (paceOf
          (milesSum (((acts.filter (fun a =>
              isRunningActivity a.activityType && decide ((2016:ℤ) ≤ a.date.year))).filter
            (fun a => dleB ⟨yr, 0, 1⟩ a.date && dleB a.date ⟨yr, 11, 31⟩)).filter
            (fun a => isTrailRun a)))
          (hoursSum (((acts.filter (fun a =>
              isRunningActivity a.activityType && decide ((2016:ℤ) ≤ a.date.year))).filter
            (fun a => dleB ⟨yr, 0, 1⟩ a.date && dleB a.date ⟨yr, 11, 31⟩)).filter
            (fun a => isTrailRun a)))) := rfl

/-- The road pace field of a yearly bucket, unfolded. -/
theorem yearBucket_roadPace (acts : List Activity) (yr : ℤ) :
    (yearBucket acts yr).roadPace
      = jsTruthyRound (paceOf
          (milesSum (((acts.filter (fun a =>
              isRunningActivity a.activityType && decide ((2016:ℤ) ≤ a.date.year))).filter
            (fun a => dleB ⟨yr, 0, 1⟩ a.date && dleB a.date ⟨yr, 11, 31⟩)).filter
            (fun a => !isTrailRun a)))
          (hoursSum (((acts.filter (fun a =>
              isRunningActivity a.activityType && decide ((2016:ℤ) ≤ a.date.year))).filter
            (fun a => dleB ⟨yr, 0, 1⟩ a.date && dleB a.date ⟨yr, 11, 31⟩)).filter
            (fun a => !isTrailRun a)))) := rfl

/-- Activities kept under a filter inherit nonnegative moving time. -/
theorem all_nonneg_filter (l : List Activity) (p : Activity → Bool)
    (h : ∀ a ∈ l, 0 ≤ a.movingTime) : ∀ a ∈ l.filter p, 0 ≤ a.movingTime :=
  fun a ha => h a (List.mem_filter.mp ha).1

/-- C10 (amended): with nonnegative moving times, every trail/road pace
field of the yearly, monthly, weekly and daily buckets is either null or
nonnegative (a positive pace below 0.05 min/mi rounds to 0, so strict
positivity does not hold), and an exactly-zero computed pace — positive
mileage with zero recorded hours — is reported as null because of the
truthiness gate. -/
theorem pace_fields_nonneg_amended (acts : List Activity) (y : ℤ) (m : ℕ) (ws : CalDate)
    (hmt : ∀ a ∈ acts, 0 ≤ a.movingTime) :
    (∀ b ∈ monthlyData acts y,
      (b.trailPace = none ∨ ∃ q, b.trailPace = some q ∧ 0 ≤ q) ∧
      (b.roadPace = none ∨ ∃ q, b.roadPace = some q ∧ 0 ≤ q)) ∧
    (∀ b ∈ weeklyData acts y m,
      (b.trailPace = none ∨ ∃ q, b.trailPace = some q ∧ 0 ≤ q) ∧
      (b.roadPace = none ∨ ∃ q, b.roadPace = some q ∧ 0 ≤ q)) ∧
    (∀ b ∈ dailyData acts ws,
      (b.trailPace = none ∨ ∃ q, b.trailPace = some q ∧ 0 ≤ q) ∧
      (b.roadPace = none ∨ ∃ q, b.roadPace = some q ∧ 0 ≤ q)) ∧
    (∀ b ∈ yearlyData acts,
      (b.trailPace = none ∨ ∃ q, b.trailPace = some q ∧ 0 ≤ q) ∧
      (b.roadPace = none ∨ ∃ q, b.roadPace = some q ∧ 0 ≤ q)) ∧
    (∀ m', 0 < milesSum ((monthMatching (yearActivities acts y) y m').filter
        (fun a => isTrailRun a)) →
      hoursSum ((monthMatching (yearActivities acts y) y m').filter
        (fun a => isTrailRun a)) = 0 →
      (monthBucket (yearActivities acts y) y m').trailPace = none) := by
  have hy : ∀ a ∈ yearActivities acts y, 0 ≤ a.movingTime := by
    intro a ha
    unfold yearActivities at ha
    exact hmt a (List.mem_filter.mp ha).1
  have hma : ∀ a ∈ monthActivities acts y m, 0 ≤ a.movingTime := by
    intro a ha
    unfold monthActivities at ha
    exact hmt a (List.mem_filter.mp (List.mem_filter.mp ha).1).1
  have hwa : ∀ a ∈ weekActivitiesFor acts ws, 0 ≤ a.movingTime := by
    intro a ha
    unfold weekActivitiesFor at ha
    exact hmt a (List.mem_filter.mp (List.mem_filter.mp ha).1).1
  refine ⟨?_, ?_, ?_, ?_, ?_⟩
  · intro b hb
    obtain ⟨m', hm', rfl⟩ := List.mem_map.mp hb
    have hmlist : ∀ a ∈ monthMatching (yearActivities acts y) y m', 0 ≤ a.movingTime := by
      intro a ha
      unfold monthMatching at ha
      exact hy a (List.mem_filter.mp ha).1
    constructor
    · rw [monthBucket_trailPace]
      exact pace_nonneg_or_none _ _ (hoursSum_nonneg _ (all_nonneg_filter _ _ hmlist))
    · rw [monthBucket_roadPace]
      exact pace_nonneg_or_none _ _ (hoursSum_nonneg _ (all_nonneg_filter _ _ hmlist))
  · intro b hb
    obtain ⟨p, hp, rfl⟩ := List.mem_map.mp hb
    have hwlist : ∀ a ∈ weekMatching (monthActivities acts y m) p.2, 0 ≤ a.movingTime := by
      intro a ha
      unfold weekMatching at ha
      exact hma a (List.mem_filter.mp ha).1
    constructor
    · rw [weekBucket_trailPace]
      exact pace_nonneg_or_none _ _ (hoursSum_nonneg _ (all_nonneg_filter _ _ hwlist))
    · rw [weekBucket_roadPace]
      exact pace_nonneg_or_none _ _ (hoursSum_nonneg _ (all_nonneg_filter _ _ hwlist))
  · intro b hb
    obtain ⟨day, hd, rfl⟩ := List.mem_map.mp hb
    have hdlist : ∀ a ∈ dayMatching (weekActivitiesFor acts ws) day, 0 ≤ a.movingTime := by
      intro a ha
      unfold dayMatching at ha
      exact hwa a (List.mem_filter.mp ha).1
    constructor
    · rw [dayBucket_trailPace]
      exact pace_nonneg_or_none _ _ (hoursSum_nonneg _ (all_nonneg_filter _ _ hdlist))
    · rw [dayBucket_roadPace]
      exact pace_nonneg_or_none _ _ (hoursSum_nonneg _ (all_nonneg_filter _ _ hdlist))
  · intro b hb
    obtain ⟨yr, hyr, rfl⟩ := List.mem_map.mp hb
    have hylist : ∀ a ∈ ((acts.filter (fun a =>
        isRunningActivity a.activityType && decide ((2016:ℤ) ≤ a.date.year))).filter
        (fun a => dleB ⟨yr, 0, 1⟩ a.date && dleB a.date ⟨yr, 11, 31⟩)),
        0 ≤ a.movingTime := by
      intro a ha
      exact hmt a (List.mem_filter.mp (List.mem_filter.mp ha).1).1
    constructor
    · rw [yearBucket_trailPace]
      exact pace_nonneg_or_none _ _ (hoursSum_nonneg _ (all_nonneg_filter _ _ hylist))
    · rw [yearBucket_roadPace]
      exact pace_nonneg_or_none _ _ (hoursSum_nonneg _ (all_nonneg_filter _ _ hylist))
  · intro m' hm hz
    rw [monthBucket_trailPace]
    refine (jsTruthyRound_paceOf _ _).2.1 hm ?_
    rw [hz]
    norm_num

/-- Concrete instance of the pace-nonnegativity theorem on an empty
activity log. -/
theorem pace_fields_nonneg_amended_witness :
    (∀ a ∈ ([] : List Activity), 0 ≤ a.movingTime) ∧
    ((monthBucket (yearActivities [] 2024) 2024 0).trailPace = none ∨
      ∃ q, (monthBucket (yearActivities [] 2024) 2024 0).trailPace = some q ∧ 0 ≤ q) := by
  have hmt : ∀ a ∈ ([] : List Activity), 0 ≤ a.movingTime := by
    intro a ha
    simp at ha
  have hb : monthBucket (yearActivities [] 2024) 2024 0 ∈ monthlyData [] 2024 := by
    rw [monthlyData]
    exact List.mem_map.mpr ⟨0, by decide, rfl⟩
  exact ⟨hmt, ((pace_fields_nonneg_amended [] 2024 0 ⟨2024, 0, 7⟩ hmt).1
    (monthBucket (yearActivities [] 2024) 2024 0) hb).1⟩

/-- Concrete refutation of C10 as stated: a 100-mile trail activity with
36 seconds of moving time computes a pace of 0.006 min/mi, which the
rounding step reports as 0 — neither null nor strictly positive. -/
theorem strict_positive_pace_counterexample :
    ((monthlyData [⟨("Run").data, ⟨2024, 0, 10⟩, 0, 100, 36, 6000, 0⟩] 2024).getD 0
      ⟨0, 0, 0, 0, 0, 0, none, none⟩).trailPace = some 0 ∧
    ((monthlyData [⟨("Run").data, ⟨2024, 0, 10⟩, 0, 100, 36, 6000, 0⟩] 2024).getD 0
      ⟨0, 0, 0, 0, 0, 0, none, none⟩).trailPace ≠ none ∧
    ¬ ∃ q, ((monthlyData [⟨("Run").data, ⟨2024, 0, 10⟩, 0, 100, 36, 6000, 0⟩] 2024).getD 0
      ⟨0, 0, 0, 0, 0, 0, none, none⟩).trailPace = some q ∧ 0 < q := by
  have hget : (monthlyData [⟨("Run").data, ⟨2024, 0, 10⟩, 0, 100, 36, 6000, 0⟩] 2024).getD 0
      ⟨0, 0, 0, 0, 0, 0, none, none⟩
      = monthBucket (yearActivities
          [⟨("Run").data, ⟨2024, 0, 10⟩, 0, 100, 36, 6000, 0⟩] 2024) 2024 0 := by
    rw [monthlyData, List.getD_eq_getElem?_getD, List.getElem?_eq_getElem (by simp),
      List.getElem_map, List.getElem_range]
    rfl
  have hya : yearActivities [⟨("Run").data, ⟨2024, 0, 10⟩, 0, 100, 36, 6000, 0⟩] 2024
      = [⟨("Run").data, ⟨2024, 0, 10⟩, 0, 100, 36, 6000, 0⟩] := by
    unfold yearActivities
    rw [List.filter_eq_self.mpr]
    intro x hx
    rcases List.mem_cons.mp hx with h | h
    · subst h
      decide
    · simp at h
  have hmm : monthMatching [⟨("Run").data, ⟨2024, 0, 10⟩, 0, 100, 36, 6000, 0⟩] 2024 0
      = [⟨("Run").data, ⟨2024, 0, 10⟩, 0, 100, 36, 6000, 0⟩] := by
    unfold monthMatching
    rw [List.filter_eq_self.mpr]
    intro x hx
    rcases List.mem_cons.mp hx with h | h
    · subst h
      decide
    · simp at h
  have hd : totalDistanceOf ⟨("Run").data, ⟨2024, 0, 10⟩, 0, 100, 36, 6000, 0⟩ = 100 := by
    unfold totalDistanceOf
    norm_num
  have htrail : isTrailRun ⟨("Run").data, ⟨2024, 0, 10⟩, 0, 100, 36, 6000, 0⟩ = true := by
    simp only [isTrailRun, hd, Bool.or_eq_true, decide_eq_true_eq]
    left
    rw [if_pos (by norm_num : (100:ℚ) > 0)]
    norm_num
  have hfil : (monthMatching [⟨("Run").data, ⟨2024, 0, 10⟩, 0, 100, 36, 6000, 0⟩]
      2024 0).filter (fun x => isTrailRun x)
      = [⟨("Run").data, ⟨2024, 0, 10⟩, 0, 100, 36, 6000, 0⟩] := by
    rw [hmm, List.filter_eq_self.mpr]
    intro x hx
    rcases List.mem_cons.mp hx with h | h
    · subst h
      exact htrail
    · simp at h
  have hmiles : milesSum [(⟨("Run").data, ⟨2024, 0, 10⟩, 0, 100, 36, 6000, 0⟩ : Activity)]
      = 100 := by
    unfold milesSum
    simp [hd]
  have hhours : hoursSum [(⟨("Run").data, ⟨2024, 0, 10⟩, 0, 100, 36, 6000, 0⟩ : Activity)]
      = 1/100 := by
    unfold hoursSum hoursOf
    norm_num
  have hmain : ((monthlyData [⟨("Run").data, ⟨2024, 0, 10⟩, 0, 100, 36, 6000, 0⟩] 2024).getD 0
      ⟨0, 0, 0, 0, 0, 0, none, none⟩).trailPace = some 0 := by
    rw [hget, monthBucket_trailPace, hya, hfil, hmiles, hhours]
    unfold paceOf
    rw [if_pos (by norm_num : (100:ℚ) > 0)]
    have hr : round10 (((1:ℚ)/100 * 60) / 100) = 0 := by
      unfold round10 jsRound
      rw [show ((1:ℚ)/100 * 60) / 100 * 10 + 1/2 = 14/25 by norm_num]
      rw [show ⌊(14/25 : ℚ)⌋ = 0 by
        rw [Int.floor_eq_zero_iff]
        constructor <;> norm_num]
      norm_num
    show (if ((1:ℚ)/100 * 60) / 100 ≠ 0 then some (round10 (((1:ℚ)/100 * 60) / 100))
      else none) = some 0
    rw [if_pos (by norm_num), hr]
  refine ⟨hmain, ?_, ?_⟩
  · rw [hmain]
    simp
  · rintro ⟨q, hq, hqpos⟩
    rw [hmain] at hq
    simp only [Option.some.injEq] at hq
    rw [← hq] at hqpos
    exact lt_irrefl 0 hqpos
